import Mathlib

/-!
# TinySleeper: low-power sleep controller for the ATtiny x5

A shallow embedding of `src/TinySleeper.cpp` / `src/TinySleeper.h`.

* The controller object (`TinySleeper_t`) and the hardware registers it touches
  (`Hw`) are explicit state; every member function is a state transformer.
* Registers are plain byte cells held in `Nat`; every C expression that is
  narrowed to `uint8_t` is truncated with `u8`, the 32-bit duration counter is
  decremented with `sub32` (subtraction modulo 2^32).
* The order of the control operations (interrupt masking, watchdog writes, the
  sleep instruction, the bounded wait) is recorded in an event log, each entry
  carrying the value of the global interrupt flag at that moment.
* The `while` loop of `sleep` is run with fuel; `sleepLoop_total` shows that the
  fuel given by `sleep` always suffices.
-/

namespace TinySleeper

set_option linter.dupNamespace false

/-! ## Machine integers and bit macros -/

/-- Narrowing conversion to `uint8_t`. -/
def u8 (x : Nat) : Nat := x % 256

/-- Bit pattern of `~x` for an operand promoted to `int` (16 bits on AVR). -/
def not16 (x : Nat) : Nat := 65535 ^^^ x

/-- Subtraction `a - b` on `uint32_t`, wrapping modulo 2^32. -/
def sub32 (a b : Nat) : Nat := (a + 4294967296 - b) % 4294967296

/-- The avr-libc macro `_BV(bit)`, i.e. `1 << bit`. -/
def _BV (bit : Nat) : Nat := 1 <<< bit

/-- The avr-libc test `bit_is_set(sfr, bit)`: `sfr & _BV(bit)` is non-zero. -/
def bit_is_set (sfr bit : Nat) : Bool := (sfr &&& _BV bit) != 0

/-- The avr-libc test `bit_is_clear(sfr, bit)`: `sfr & _BV(bit)` is zero. -/
def bit_is_clear (sfr bit : Nat) : Bool := (sfr &&& _BV bit) == 0

/-- The macro `set_bit(sfr, bit)`: the byte stored by `sfr |= _BV(bit)`. -/
def set_bit (sfr bit : Nat) : Nat := u8 (sfr ||| _BV bit)

/-- The macro `clear_bit(sfr, bit)`: the byte stored by `sfr &= ~_BV(bit)`. -/
def clear_bit (sfr bit : Nat) : Nat := u8 (sfr &&& not16 (_BV bit))

/-! ## Device constants

The bit numbers below are declared in the avr-libc device header of the
ATtiny25/45/85, which the library includes but does not contain. -/

/-- Number of I/O pins of the ATtiny85 (PB0-PB5), `TinySleeper.h`. -/
def ATTINY_IO_PINS : Nat := 6

/-- Modelled from the spec: the device header is not under src/; bit `ADEN`
(ADC enable) of `ADCSRA` on the ATtiny x5. -/
def ADEN : Nat := 7

/-- Modelled from the spec: the device header is not under src/; bit `PRADC`
(ADC power reduction) of `PRR` on the ATtiny x5. -/
def PRADC : Nat := 0

/-- Modelled from the spec: the device header is not under src/; bit `PRTIM1`
(Timer1 power reduction) of `PRR` on the ATtiny x5. -/
def PRTIM1 : Nat := 3

/-- Modelled from the spec: the device header is not under src/; bit `ACD`
(analog comparator disable) of `ACSR` on the ATtiny x5. -/
def ACD : Nat := 7

/-- Modelled from the spec: the device header is not under src/; watchdog
prescaler bit 3 of `WDTCR` on the ATtiny x5. -/
def WDP3 : Nat := 5

/-- Modelled from the spec: the device header is not under src/; watchdog
interrupt-enable bit of `WDTCR` on the ATtiny x5. -/
def WDIE : Nat := 6

/-- Modelled from the spec: the device header is not under src/; watchdog
change-enable bit of `WDTCR` on the ATtiny x5. -/
def WDCE : Nat := 4

/-- Modelled from the spec: the device header is not under src/; watchdog
reset-enable bit of `WDTCR` on the ATtiny x5. -/
def WDE : Nat := 3

/-! ## State -/

/-- The data members of `class TinySleeper_t`. -/
structure TinySleeper_t where
  _pinManagementEnabled : Bool
  _bodSleepDisable : Bool
  _excludedPinsMask : Nat
  _savedDDRB : Nat
  _savedPORTB : Nat
  _wasAdcEnabled : Bool
  _wasTimer1Enabled : Bool
  _wasAnalogCompEnabled : Bool
deriving DecidableEq, Repr

/-- The hardware state the library reads or writes: the port B direction and
data registers, the peripheral control registers, the watchdog control
register, the sleep-enable flag `SE` of `MCUCR` and the global interrupt flag
`I` of `SREG`. -/
structure Hw where
  DDRB : Nat
  PORTB : Nat
  ADCSRA : Nat
  PRR : Nat
  ACSR : Nat
  WDTCR : Nat
  SE : Bool
  I : Bool
deriving DecidableEq, Repr

/-- Control operations whose order matters. `cycle` is a marker written by the
loop when a branch has chosen a prescaler: the remaining duration before the
subtraction, the interval subtracted and the prescaler index. -/
inductive Event where
  | set_sleep_mode
  | cli
  | wdt_reset
  | sleep_enable
  | sleep_bod_disable
  | sei
  | cycle (remaining interval : Nat) (prescaler : Int)
  | wdtcrWrite (value : Nat)
  | sleep_cpu
  | wdt_disable
  | sleep_disable
  | delay (ms : Nat)
deriving DecidableEq, Repr

/-- One log entry: the operation and the global interrupt flag when it ran. -/
structure Entry where
  ev : Event
  I : Bool
deriving DecidableEq, Repr

/-- An execution in progress: the controller object, the hardware and the log
of control operations performed so far. -/
structure Exec where
  self : TinySleeper_t
  hw : Hw
  log : List Entry
deriving DecidableEq, Repr

/-- Append an operation to the log, stamped with the current interrupt flag. -/
def emit (e : Exec) (ev : Event) : Exec :=
  { e with log := e.log ++ [⟨ev, e.hw.I⟩] }

/-! ## Configuration (TinySleeper.cpp lines 14-37) -/

/-- The constructor; `raw` is the storage the object is constructed in (the
members it does not assign keep their prior content). -/
def TinySleeper_t.ctor (raw : TinySleeper_t) : TinySleeper_t :=
  { raw with
    _pinManagementEnabled := false
    _excludedPinsMask := 0
    _bodSleepDisable := true }

/-- Member `enablePinManagement(bool enabled)`. -/
def TinySleeper_t.enablePinManagement (self : TinySleeper_t) (enabled : Bool) :
    TinySleeper_t :=
  { self with _pinManagementEnabled := enabled }

/-- Member `excludePin(uint8_t pin)`. -/
def TinySleeper_t.excludePin (self : TinySleeper_t) (pin : Nat) : TinySleeper_t :=
  if pin < ATTINY_IO_PINS then
    { self with _excludedPinsMask := u8 (self._excludedPinsMask ||| (1 <<< pin)) }
  else self

/-- Member `enableBodInSleep(bool disable)`. -/
def TinySleeper_t.enableBodInSleep (self : TinySleeper_t) (disable : Bool) :
    TinySleeper_t :=
  { self with _bodSleepDisable := disable }

/-! ## Pin and peripheral snapshots (lines 39-97) -/

/-- Member `savePinStates()`. -/
def savePinStates (e : Exec) : Exec :=
  { e with self := { e.self with _savedDDRB := e.hw.DDRB, _savedPORTB := e.hw.PORTB } }

/-- Member `restorePinStates()`. -/
def restorePinStates (e : Exec) : Exec :=
  { e with hw := { e.hw with DDRB := e.self._savedDDRB, PORTB := e.self._savedPORTB } }

/-- Member `setPinsToLowPower()`. -/
def setPinsToLowPower (e : Exec) : Exec :=
  let newDDRB := u8 (e.hw.DDRB &&& e.self._excludedPinsMask)
  let newPORTB :=
    u8 ((e.hw.PORTB &&& e.self._excludedPinsMask) ||| not16 e.self._excludedPinsMask)
  { e with hw := { e.hw with DDRB := newDDRB, PORTB := newPORTB } }

/-- Member `saveSystemStates()`. -/
def saveSystemStates (e : Exec) : Exec :=
  { e with self := { e.self with
      _wasAdcEnabled := bit_is_set e.hw.ADCSRA ADEN
      _wasTimer1Enabled := bit_is_clear e.hw.PRR PRTIM1
      _wasAnalogCompEnabled := bit_is_clear e.hw.ACSR ACD } }

/-- Modelled from the spec: avr/power.h is not under src/; `power_adc_enable()`
clears the ADC power-reduction bit, `PRR &= (uint8_t)~(1 << PRADC)`. -/
def power_adc_enable (e : Exec) : Exec :=
  { e with hw := { e.hw with PRR := u8 (e.hw.PRR &&& u8 (not16 (1 <<< PRADC))) } }

/-- Modelled from the spec: avr/power.h is not under src/; `power_adc_disable()`
sets the ADC power-reduction bit, `PRR |= (uint8_t)(1 << PRADC)`. -/
def power_adc_disable (e : Exec) : Exec :=
  { e with hw := { e.hw with PRR := u8 (e.hw.PRR ||| u8 (1 <<< PRADC)) } }

/-- Modelled from the spec: avr/power.h is not under src/; `power_timer1_enable()`
clears the Timer1 power-reduction bit, `PRR &= (uint8_t)~(1 << PRTIM1)`. -/
def power_timer1_enable (e : Exec) : Exec :=
  { e with hw := { e.hw with PRR := u8 (e.hw.PRR &&& u8 (not16 (1 <<< PRTIM1))) } }

/-- Modelled from the spec: avr/power.h is not under src/; `power_timer1_disable()`
sets the Timer1 power-reduction bit, `PRR |= (uint8_t)(1 << PRTIM1)`. -/
def power_timer1_disable (e : Exec) : Exec :=
  { e with hw := { e.hw with PRR := u8 (e.hw.PRR ||| u8 (1 <<< PRTIM1)) } }

/-- Macro `power_analog_comp_disable()`, line 10: `set_bit(ACSR, ACD)`. -/
def power_analog_comp_disable (e : Exec) : Exec :=
  { e with hw := { e.hw with ACSR := set_bit e.hw.ACSR ACD } }

/-- Macro `power_analog_comp_enable()`, line 12: `clear_bit(ACSR, ACD)`. -/
def power_analog_comp_enable (e : Exec) : Exec :=
  { e with hw := { e.hw with ACSR := clear_bit e.hw.ACSR ACD } }

/-- Member `restoreSystemStates()`. -/
def restoreSystemStates (e : Exec) : Exec :=
  let e := if e.self._wasAdcEnabled then power_adc_enable e else e
  let e := if e.self._wasTimer1Enabled then power_timer1_enable e else e
  let e := if e.self._wasAnalogCompEnabled then power_analog_comp_enable e else e
  e

/-! ## Processor control operations (avr-libc, modelled as flag writes) -/

/-- Modelled from the spec: avr/sleep.h is not under src/; selecting the sleep
mode is recorded as an operation only. -/
def set_sleep_mode (e : Exec) : Exec := emit e .set_sleep_mode

/-- Modelled from the spec: avr/interrupt.h is not under src/; `cli()` clears
the global interrupt flag. -/
def cli (e : Exec) : Exec :=
  let e := emit e .cli
  { e with hw := { e.hw with I := false } }

/-- Modelled from the spec: avr/interrupt.h is not under src/; `sei()` sets the
global interrupt flag. -/
def sei (e : Exec) : Exec :=
  let e := emit e .sei
  { e with hw := { e.hw with I := true } }

/-- Modelled from the spec: avr/wdt.h is not under src/; `wdt_reset()` restarts
the watchdog countdown and writes no register of the model. -/
def wdt_reset (e : Exec) : Exec := emit e .wdt_reset

/-- Modelled from the spec: avr/sleep.h is not under src/; `sleep_enable()` sets
the sleep-enable flag. -/
def sleep_enable (e : Exec) : Exec :=
  let e := emit e .sleep_enable
  { e with hw := { e.hw with SE := true } }

/-- Modelled from the spec: avr/sleep.h is not under src/; `sleep_disable()`
clears the sleep-enable flag. -/
def sleep_disable (e : Exec) : Exec :=
  let e := emit e .sleep_disable
  { e with hw := { e.hw with SE := false } }

/-- Modelled from the spec: avr/sleep.h is not under src/; `sleep_bod_disable()`
is recorded as an operation only. -/
def sleep_bod_disable (e : Exec) : Exec := emit e .sleep_bod_disable

/-- Modelled from the spec: avr/wdt.h is not under src/; `wdt_disable()` leaves
the watchdog control register cleared. -/
def wdt_disable (e : Exec) : Exec :=
  let e := emit e .wdt_disable
  { e with hw := { e.hw with WDTCR := 0 } }

/-- The handler `ISR(WDT_vect)`, lines 233-236: the hardware masks interrupts
on entry, the body calls `wdt_disable()`, the return unmasks them. -/
def WDT_vect (e : Exec) : Exec :=
  let e := { e with hw := { e.hw with I := false } }
  let e := wdt_disable e
  { e with hw := { e.hw with I := true } }

/-- Modelled from the spec: avr/sleep.h is not under src/; `sleep_cpu()`, the
sleep instruction, as the blocking "arm and wait": when interrupts are unmasked
the watchdog interrupt ends the wait and its handler runs. The log entry keeps
the interrupt flag the instruction was issued with. -/
def sleep_cpu (e : Exec) : Exec :=
  let e := emit e .sleep_cpu
  if e.hw.I then WDT_vect e else e

/-- Modelled from the spec: avr/sleep.h is not under src/; `sleep_mode()` is
`sleep_enable(); sleep_cpu(); sleep_disable();`. -/
def sleep_mode (e : Exec) : Exec :=
  sleep_disable (sleep_cpu (sleep_enable e))

/-- Modelled from the spec: the Arduino core is not under src/; `delay(ms)`,
the bounded wait, writes no register of the model. -/
def delay (e : Exec) (ms : Nat) : Exec := emit e (.delay ms)

/-! ## Wake source driver (lines 208-227) -/

/-- Member `systemGoToSleep()`. -/
def systemGoToSleep (e : Exec) : Exec :=
  sleep_disable (sleep_mode e)

/-- A store to the watchdog control register `WDTCR`. -/
def writeWDTCR (e : Exec) (value : Nat) : Exec :=
  let e := emit e (.wdtcrWrite value)
  { e with hw := { e.hw with WDTCR := value } }

/-- Lines 217-222 of `setupWdtForWakeup`: the local `wdt_prescaler_bits` as it
stands when it is stored to `WDTCR`. -/
def wdt_prescaler_bits (prescaler_index : Int) : Nat :=
  let wdt_prescaler_bits := u8 (Int.land prescaler_index 7).toNat
  let wdt_prescaler_bits :=
    if prescaler_index > 7 then u8 (wdt_prescaler_bits ||| (1 <<< WDP3))
    else wdt_prescaler_bits
  u8 (wdt_prescaler_bits ||| (1 <<< WDIE))

/-- Member `setupWdtForWakeup(int prescaler_index)`: the unlock store
`WDTCR |= (1 << WDCE) | (1 << WDE)` followed by the configuration store. -/
def setupWdtForWakeup (e : Exec) (prescaler_index : Int) : Exec :=
  let e := writeWDTCR e (u8 (e.hw.WDTCR ||| ((1 <<< WDCE) ||| (1 <<< WDE))))
  writeWDTCR e (wdt_prescaler_bits prescaler_index)

/-! ## The sleep operation (lines 99-206) -/

/-- Outcome of the prescaler selection of one loop iteration: the local
`prescaler`, the updated `duration_ms` and the interval the taken branch
subtracted (0 when no branch was taken). -/
structure Selection where
  prescaler : Int
  duration_ms : Nat
  interval : Nat
deriving DecidableEq, Repr

/-- The `if / else if` chain of lines 135-186. -/
def selectPrescaler (duration_ms : Nat) : Selection :=
  if duration_ms >= 8000 then ⟨9, sub32 duration_ms 8000, 8000⟩
  else if duration_ms >= 4000 then ⟨8, sub32 duration_ms 4000, 4000⟩
  else if duration_ms >= 2000 then ⟨7, sub32 duration_ms 2000, 2000⟩
  else if duration_ms >= 1000 then ⟨6, sub32 duration_ms 1000, 1000⟩
  else if duration_ms >= 500 then ⟨5, sub32 duration_ms 500, 500⟩
  else if duration_ms >= 250 then ⟨4, sub32 duration_ms 250, 250⟩
  else if duration_ms >= 128 then ⟨3, sub32 duration_ms 128, 128⟩
  else if duration_ms >= 64 then ⟨2, sub32 duration_ms 64, 64⟩
  else if duration_ms >= 32 then ⟨1, sub32 duration_ms 32, 32⟩
  else if duration_ms >= 16 then ⟨0, sub32 duration_ms 16, 16⟩
  else ⟨-1, duration_ms, 0⟩

/-- One iteration of the `while` body, lines 135-198. -/
def loopBody (e : Exec) (duration_ms : Nat) : Exec × Nat :=
  let sel := selectPrescaler duration_ms
  if sel.prescaler != -1 then
    let e := emit e (.cycle duration_ms sel.interval sel.prescaler)
    let e := setupWdtForWakeup e sel.prescaler
    let e := systemGoToSleep e
    (e, sel.duration_ms)
  else
    let e := delay e sel.duration_ms
    (e, 0)

/-- The loop `while (duration_ms > 0)`, run for at most `fuel` iterations;
`none` when the fuel runs out before the loop condition fails. -/
def sleepLoop : Nat → Exec → Nat → Option (Exec × Nat)
  | 0, _, _ => none
  | fuel + 1, e, duration_ms =>
    if duration_ms > 0 then
      sleepLoop fuel (loopBody e duration_ms).1 (loopBody e duration_ms).2
    else some (e, duration_ms)

/-- Lines 103-129 of `sleep`: state capture, quiescing and the critical
section. -/
def sleepPrepare (e : Exec) : Exec :=
  let e := saveSystemStates e
  let e := if e.self._pinManagementEnabled then setPinsToLowPower (savePinStates e) else e
  let e := power_adc_disable e
  let e := power_timer1_disable e
  let e := power_analog_comp_disable e
  let e := set_sleep_mode e
  let e := cli e
  let e := wdt_reset e
  let e := sleep_enable e
  let e := if e.self._bodSleepDisable then sleep_bod_disable e else e
  sei e

/-- Lines 202-205 of `sleep`: restoration after the loop. -/
def sleepRestore (e : Exec) : Exec :=
  let e := restoreSystemStates e
  if e.self._pinManagementEnabled then restorePinStates e else e

/-- Member `sleep(uint32_t duration_ms)`, started with an empty log. The loop
is given `duration_ms + 1` iterations of fuel. -/
def sleep (self : TinySleeper_t) (hw : Hw) (duration_ms : Nat) : Option Exec :=
  match sleepLoop (duration_ms + 1) (sleepPrepare ⟨self, hw, []⟩) duration_ms with
  | none => none
  | some r => some (sleepRestore r.1)

/-! ## Observations on the log -/

/-- Lengths of the wake-source cycles, in execution order. -/
def cycles (log : List Entry) : List Nat :=
  log.filterMap fun x => match x.ev with
    | .cycle _ interval _ => some interval
    | _ => none

/-- Lengths of the bounded waits, in execution order. -/
def waits (log : List Entry) : List Nat :=
  log.filterMap fun x => match x.ev with
    | .delay ms => some ms
    | _ => none

/-- Values stored to the watchdog control register by `setupWdtForWakeup`. -/
def wdtcrWrites (log : List Entry) : List Nat :=
  log.filterMap fun x => match x.ev with
    | .wdtcrWrite v => some v
    | _ => none

/-- Number of times the sleep instruction was issued. -/
def sleepInstrCount (log : List Entry) : Nat :=
  log.countP fun x => x.ev == .sleep_cpu

/-- The wake interval menu of the spec, longest first. -/
def menu : List Nat := [8000, 4000, 2000, 1000, 500, 250, 128, 64, 32, 16]

/-- The pairs (prescaler index, interval) of the ten branches of the chain in
`selectPrescaler`, in source order. -/
def branchTable : List (Int × Nat) :=
  [(9, 8000), (8, 4000), (7, 2000), (6, 1000), (5, 500), (4, 250), (3, 128), (2, 64),
   (1, 32), (0, 16)]

/-- Log entries appended by the critical section of `sleepPrepare`, started
with interrupt flag `I` and BOD policy `bod`. -/
def prepareLog (I bod : Bool) : List Entry :=
  [⟨.set_sleep_mode, I⟩, ⟨.cli, I⟩, ⟨.wdt_reset, false⟩, ⟨.sleep_enable, false⟩] ++
    (if bod then [⟨.sleep_bod_disable, false⟩] else []) ++ [⟨.sei, false⟩]

/-- Log entries appended by one loop iteration that takes the branch with
prescaler `p` and interval `k` at remaining duration `d`, entered with interrupt
flag `I` and watchdog control register `wdtcr`. -/
def cycleLog (I : Bool) (wdtcr d k : Nat) (p : Int) : List Entry :=
  [⟨.cycle d k p, I⟩, ⟨.wdtcrWrite (u8 (wdtcr ||| 24)), I⟩,
   ⟨.wdtcrWrite (wdt_prescaler_bits p), I⟩, ⟨.sleep_enable, I⟩, ⟨.sleep_cpu, I⟩] ++
    (if I then [⟨.wdt_disable, false⟩] else []) ++
    [⟨.sleep_disable, I⟩, ⟨.sleep_disable, I⟩]

/-- The successive values of `duration_ms` at the head of the loop, for at most
`fuel` evaluations of the loop condition. -/
def remainders : Nat → Exec → Nat → List Nat
  | 0, _, _ => []
  | fuel + 1, e, duration_ms =>
    duration_ms ::
      (if duration_ms > 0 then
        remainders fuel (loopBody e duration_ms).1 (loopBody e duration_ms).2
      else [])

/-- The global instance `TinySleeper_t TinySleeper;` (line 239): zero-initialised
static storage, then the constructor. -/
def TinySleeper : TinySleeper_t :=
  TinySleeper_t.ctor ⟨false, false, 0, 0, 0, false, false, false⟩

/-- A sample hardware state: PB0 and PB1 outputs with PB0 high, ADC enabled
with prescaler 128, nothing powered down, watchdog off, interrupts enabled. -/
def hwRunning : Hw := ⟨3, 1, 135, 0, 0, 0, false, true⟩

/-- A sample hardware state: as `hwRunning`, but the ADC enable bit is clear. -/
def hwAdcOff : Hw := ⟨3, 1, 7, 0, 0, 0, false, true⟩

/-- A sample hardware state: as `hwRunning`, but the ADC is powered down in the
power reduction register (`PRADC` set) while its enable bit `ADEN` is set. -/
def hwAdcPoweredDown : Hw := ⟨3, 1, 135, 1, 0, 0, false, true⟩

/-- A sample hardware state: ADC, Timer1 and analog comparator all disabled
(`ADEN` clear, `PRTIM1` set, `ACD` set), interrupts enabled. -/
def hwAllOff : Hw := ⟨3, 1, 7, 8, 128, 0, false, true⟩

/-- Number of `sleep_bod_disable()` operations in a log. -/
def bodDisableCount (log : List Entry) : Nat :=
  log.countP fun x => x.ev == .sleep_bod_disable

/-- A call of the public interface of the controller. A `sleep` call carries the
hardware state it is made in (the application may have written the registers
since the previous call). -/
inductive Call where
  | enablePinManagement (enabled : Bool)
  | excludePin (pin : Nat)
  | enableBodInSleep (disable : Bool)
  | sleep (hw : Hw) (duration_ms : Nat)
deriving DecidableEq, Repr

/-- The controller object after one call of the public interface. -/
def applyCall (self : TinySleeper_t) : Call → TinySleeper_t
  | .enablePinManagement enabled => self.enablePinManagement enabled
  | .excludePin pin => self.excludePin pin
  | .enableBodInSleep disable => self.enableBodInSleep disable
  | .sleep hw duration_ms =>
    match sleep self hw duration_ms with
    | some e => e.self
    | none => self

/-- The controller object after a sequence of calls, first call first. -/
def runCalls (self : TinySleeper_t) (calls : List Call) : TinySleeper_t :=
  calls.foldl applyCall self

/-- The menu intervals below 8000, longest first. -/
def lowerMenu : List Nat := [4000, 2000, 1000, 500, 250, 128, 64, 32, 16]

/-- Number of loop iterations that take a branch of the chain (wake-source
cycles) when the loop is entered with `duration_ms`, for at most `fuel`
iterations. -/
def cycleCount : Nat → Nat → Nat
  | 0, _ => 0
  | fuel + 1, duration_ms =>
    if (selectPrescaler duration_ms).prescaler != -1 then
      1 + cycleCount fuel (selectPrescaler duration_ms).duration_ms
    else 0

/-- Number of binary ones of a number below 32. -/
def ones5 (a : Nat) : Nat := a / 16 % 2 + a / 8 % 2 + a / 4 % 2 + a / 2 % 2 + a % 2

/-- Closed form of the cycle count below 8000 ms: the binary ones of the number
of 250 ms units plus the binary ones of the number of 16 ms units in the rest. -/
def cycleCountClosed (r : Nat) : Nat := ones5 (r / 250) + ones5 (r % 250 / 16)

/-! ## The prescaler selection -/

theorem selectPrescaler_none {d : Nat} (h : d < 16) :
    selectPrescaler d = ⟨-1, d, 0⟩ := by
  unfold selectPrescaler
  simp only [ge_iff_le]
  repeat (rw [if_neg (by omega)])

theorem selectPrescaler_some {d : Nat} (h : 16 ≤ d) :
    ∃ p k, (p, k) ∈ branchTable ∧ k ≤ d ∧ (∀ m ∈ menu, m ≤ d → m ≤ k) ∧
      selectPrescaler d = ⟨p, sub32 d k, k⟩ := by
  have hm : ∀ k : Nat, (∀ j ∈ menu, k < j → d < j) → ∀ m ∈ menu, m ≤ d → m ≤ k := by
    intro k hk m hmem hmd
    by_contra hlt
    have := hk m hmem (by omega)
    omega
  unfold selectPrescaler
  simp only [ge_iff_le]
  by_cases h9 : 8000 ≤ d
  · exact ⟨9, 8000, by simp [branchTable], h9, hm _ (by simp [menu]), by rw [if_pos h9]⟩
  rw [if_neg h9]
  by_cases h8 : 4000 ≤ d
  · exact ⟨8, 4000, by simp [branchTable], h8, hm _ (by simp [menu]; omega), by rw [if_pos h8]⟩
  rw [if_neg h8]
  by_cases h7 : 2000 ≤ d
  · exact ⟨7, 2000, by simp [branchTable], h7, hm _ (by simp [menu]; omega), by rw [if_pos h7]⟩
  rw [if_neg h7]
  by_cases h6 : 1000 ≤ d
  · exact ⟨6, 1000, by simp [branchTable], h6, hm _ (by simp [menu]; omega), by rw [if_pos h6]⟩
  rw [if_neg h6]
  by_cases h5 : 500 ≤ d
  · exact ⟨5, 500, by simp [branchTable], h5, hm _ (by simp [menu]; omega), by rw [if_pos h5]⟩
  rw [if_neg h5]
  by_cases h4 : 250 ≤ d
  · exact ⟨4, 250, by simp [branchTable], h4, hm _ (by simp [menu]; omega), by rw [if_pos h4]⟩
  rw [if_neg h4]
  by_cases h3 : 128 ≤ d
  · exact ⟨3, 128, by simp [branchTable], h3, hm _ (by simp [menu]; omega), by rw [if_pos h3]⟩
  rw [if_neg h3]
  by_cases h2 : 64 ≤ d
  · exact ⟨2, 64, by simp [branchTable], h2, hm _ (by simp [menu]; omega), by rw [if_pos h2]⟩
  rw [if_neg h2]
  by_cases h1 : 32 ≤ d
  · exact ⟨1, 32, by simp [branchTable], h1, hm _ (by simp [menu]; omega), by rw [if_pos h1]⟩
  rw [if_neg h1]
  exact ⟨0, 16, by simp [branchTable], h, hm _ (by simp [menu]; omega), by rw [if_pos h]⟩

theorem branchTable_mem {p : Int} {k : Nat} (h : (p, k) ∈ branchTable) :
    p ≠ -1 ∧ 0 ≤ p ∧ p ≤ 9 ∧ 16 ≤ k ∧ k ≤ 8000 ∧ k ∈ menu := by
  simp only [branchTable, List.mem_cons, Prod.mk.injEq, List.mem_singleton,
    List.not_mem_nil, or_false] at h
  rcases h with h | h | h | h | h | h | h | h | h | h <;> obtain ⟨rfl, rfl⟩ := h <;>
    simp [menu]

theorem sub32_of_le {d k : Nat} (hk : k ≤ d) (hd : d < 4294967296) : sub32 d k = d - k := by
  unfold sub32; omega

theorem sub32_lt {d k : Nat} (hk : k ≤ d) (h0 : 0 < k) : sub32 d k < d := by
  unfold sub32; omega

/-! ## Effect of the operations on the three components of an execution -/

@[simp]
theorem emit_log (e : Exec) (ev : Event) :
    (emit e ev).log = e.log ++ [⟨ev, e.hw.I⟩] := rfl

@[simp]
theorem emit_hw (e : Exec) (ev : Event) : (emit e ev).hw = e.hw := rfl

@[simp]
theorem emit_self (e : Exec) (ev : Event) : (emit e ev).self = e.self := rfl

theorem setupWdtForWakeup_eq (e : Exec) (p : Int) :
    setupWdtForWakeup e p =
      { e with
        hw := { e.hw with WDTCR := wdt_prescaler_bits p }
        log := e.log ++ [⟨.wdtcrWrite (u8 (e.hw.WDTCR ||| 24)), e.hw.I⟩,
                 ⟨.wdtcrWrite (wdt_prescaler_bits p), e.hw.I⟩] } := by
  simp [setupWdtForWakeup, writeWDTCR, emit, WDCE, WDE]

theorem systemGoToSleep_eq (e : Exec) :
    systemGoToSleep e =
      { e with
        hw := { e.hw with SE := false, WDTCR := if e.hw.I then 0 else e.hw.WDTCR }
        log := e.log ++ [⟨.sleep_enable, e.hw.I⟩, ⟨.sleep_cpu, e.hw.I⟩] ++
                 (if e.hw.I then [⟨.wdt_disable, false⟩] else []) ++
                 [⟨.sleep_disable, e.hw.I⟩, ⟨.sleep_disable, e.hw.I⟩] } := by
  cases hI : e.hw.I <;>
    simp [systemGoToSleep, sleep_mode, sleep_cpu, sleep_enable, sleep_disable, WDT_vect,
      wdt_disable, emit, hI]

/-- A loop iteration entered with less than 16 ms left is the bounded wait. -/
theorem loopBody_wait (e : Exec) {d : Nat} (h : d < 16) :
    loopBody e d = ({ e with log := e.log ++ [⟨.delay d, e.hw.I⟩] }, 0) := by
  simp [loopBody, selectPrescaler_none h, delay, emit]

/-- A loop iteration entered with at least 16 ms left is one wake-source cycle
of the largest menu interval that fits. -/
theorem loopBody_cycle (e : Exec) {d : Nat} (h : 16 ≤ d) :
    ∃ p k, (p, k) ∈ branchTable ∧ k ≤ d ∧ (∀ m ∈ menu, m ≤ d → m ≤ k) ∧
      loopBody e d =
        ({ self := e.self
           hw := { e.hw with SE := false
                             WDTCR := if e.hw.I then 0 else wdt_prescaler_bits p }
           log := e.log ++ cycleLog e.hw.I e.hw.WDTCR d k p }, sub32 d k) := by
  obtain ⟨p, k, hpk, hkd, hbig, hsel⟩ := selectPrescaler_some h
  refine ⟨p, k, hpk, hkd, hbig, ?_⟩
  have hp := (branchTable_mem hpk).1
  cases hI : e.hw.I <;>
    simp [loopBody, hsel, hp, setupWdtForWakeup_eq, systemGoToSleep_eq, cycleLog, hI]

theorem loopBody_snd_lt (e : Exec) {d : Nat} (h : 0 < d) : (loopBody e d).2 < d := by
  by_cases hd : d < 16
  · rw [loopBody_wait e hd]; exact h
  · obtain ⟨p, k, hpk, hkd, _, heq⟩ := loopBody_cycle e (Nat.le_of_not_lt hd)
    rw [heq]
    have := (branchTable_mem hpk).2.2.2.1
    exact sub32_lt hkd (by omega)

/-! ## The loop: termination and the invariant rule -/

/-- Invariant rule for the loop, with termination: an assertion on the
execution and the remaining duration that every iteration preserves holds, with
remaining duration 0, in the state the loop exits with; any fuel above the
initial duration suffices. -/
theorem sleepLoop_inv (P : Exec → Nat → Prop)
    (hstep : ∀ e d, 0 < d → P e d → P (loopBody e d).1 (loopBody e d).2) :
    ∀ (fuel : Nat) (e : Exec) (d : Nat), d < fuel → P e d →
      ∃ e', sleepLoop fuel e d = some (e', 0) ∧ P e' 0 := by
  intro fuel
  induction fuel with
  | zero => intro e d hd; omega
  | succ n ih =>
    intro e d hd hP
    by_cases h0 : 0 < d
    · have hlt := loopBody_snd_lt e h0
      obtain ⟨e', he', hP'⟩ :=
        ih (loopBody e d).1 (loopBody e d).2 (by omega) (hstep e d h0 hP)
      exact ⟨e', by simp [sleepLoop, h0, he'], hP'⟩
    · have : d = 0 := by omega
      subst this
      exact ⟨e, by simp [sleepLoop], hP⟩

/-- The loop always exits, with remaining duration 0, within `d + 1` iterations. -/
theorem sleepLoop_total (e : Exec) (d : Nat) :
    ∃ e', sleepLoop (d + 1) e d = some (e', 0) := by
  obtain ⟨e', he', _⟩ :=
    sleepLoop_inv (fun _ _ => True) (fun _ _ _ _ => trivial) (d + 1) e d (by omega) trivial
  exact ⟨e', he'⟩

/-- The result of `sleep` from the result of its loop. -/
theorem sleep_of_sleepLoop {self : TinySleeper_t} {hw : Hw} {D : Nat} {e' : Exec} {d' : Nat}
    (h : sleepLoop (D + 1) (sleepPrepare ⟨self, hw, []⟩) D = some (e', d')) :
    sleep self hw D = some (sleepRestore e') := by
  unfold sleep
  rw [h]

/-- Invariant rule lifted to `sleep`: what holds after the preparation phase and
is preserved by every iteration holds, with remaining duration 0, before the
restoration phase, and `sleep` returns the restored state. -/
theorem sleep_inv (P : Exec → Nat → Prop) (self : TinySleeper_t) (hw : Hw) (D : Nat)
    (hinit : P (sleepPrepare ⟨self, hw, []⟩) D)
    (hstep : ∀ e d, 0 < d → P e d → P (loopBody e d).1 (loopBody e d).2) :
    ∃ e', sleep self hw D = some (sleepRestore e') ∧ P e' 0 := by
  obtain ⟨e', he', hP⟩ := sleepLoop_inv P hstep (D + 1) _ D (by omega) hinit
  exact ⟨e', sleep_of_sleepLoop he', hP⟩

/-! ## Preparation and restoration phases -/

theorem sleepPrepare_log (e : Exec) :
    (sleepPrepare e).log = e.log ++ prepareLog e.hw.I e.self._bodSleepDisable := by
  cases hb : e.self._bodSleepDisable <;> cases hp : e.self._pinManagementEnabled <;>
    simp [sleepPrepare, saveSystemStates, savePinStates, setPinsToLowPower,
      power_adc_disable, power_timer1_disable, power_analog_comp_disable, set_sleep_mode,
      cli, wdt_reset, sleep_enable, sleep_bod_disable, sei, emit, prepareLog, hb, hp]

@[simp]
theorem sleepRestore_log (e : Exec) : (sleepRestore e).log = e.log := by
  simp only [sleepRestore, restoreSystemStates, power_adc_enable, power_timer1_enable,
    power_analog_comp_enable, restorePinStates]
  split_ifs <;> rfl

/-! ## Observations on the log fragments -/

@[simp]
theorem cycles_nil : cycles [] = [] := rfl

@[simp]
theorem waits_nil : waits [] = [] := rfl

@[simp]
theorem wdtcrWrites_nil : wdtcrWrites [] = [] := rfl

@[simp]
theorem sleepInstrCount_nil : sleepInstrCount [] = 0 := rfl

theorem cycles_append (a b : List Entry) : cycles (a ++ b) = cycles a ++ cycles b := by
  simp [cycles]

theorem waits_append (a b : List Entry) : waits (a ++ b) = waits a ++ waits b := by
  simp [waits]

theorem wdtcrWrites_append (a b : List Entry) :
    wdtcrWrites (a ++ b) = wdtcrWrites a ++ wdtcrWrites b := by
  simp [wdtcrWrites]

theorem sleepInstrCount_append (a b : List Entry) :
    sleepInstrCount (a ++ b) = sleepInstrCount a + sleepInstrCount b := by
  simp [sleepInstrCount]

theorem cycles_prepareLog (I bod : Bool) : cycles (prepareLog I bod) = [] := by
  cases bod <;> rfl

theorem waits_prepareLog (I bod : Bool) : waits (prepareLog I bod) = [] := by
  cases bod <;> rfl

theorem wdtcrWrites_prepareLog (I bod : Bool) : wdtcrWrites (prepareLog I bod) = [] := by
  cases bod <;> rfl

theorem sleepInstrCount_prepareLog (I bod : Bool) :
    sleepInstrCount (prepareLog I bod) = 0 := by
  cases bod <;> rfl

theorem cycles_cycleLog (I : Bool) (w d k : Nat) (p : Int) :
    cycles (cycleLog I w d k p) = [k] := by
  cases I <;> rfl

theorem waits_cycleLog (I : Bool) (w d k : Nat) (p : Int) :
    waits (cycleLog I w d k p) = [] := by
  cases I <;> rfl

theorem cycles_delay (d : Nat) (I : Bool) : cycles [⟨.delay d, I⟩] = [] := rfl

theorem waits_delay (d : Nat) (I : Bool) : waits [⟨.delay d, I⟩] = [d] := rfl

/-! ## Accounting of the requested duration -/

/-- The cycles and the bounded wait account for the whole duration, and a
bounded wait, if any, is a single one of 1 to 15 ms. -/
theorem sleep_account (self : TinySleeper_t) (hw : Hw) (D : Nat) (hD : D < 4294967296) :
    ∃ e', sleep self hw D = some (sleepRestore e') ∧
      (cycles e'.log).sum + (waits e'.log).sum = D ∧
      (waits e'.log = [] ∨ ∃ r, 1 ≤ r ∧ r ≤ 15 ∧ waits e'.log = [r]) := by
  obtain ⟨e', he', _, hsum, hw'⟩ := sleep_inv
    (fun e d => d < 4294967296 ∧ (cycles e.log).sum + (waits e.log).sum + d = D ∧
      (waits e.log = [] ∨ (d = 0 ∧ ∃ r, 1 ≤ r ∧ r ≤ 15 ∧ waits e.log = [r])))
    self hw D
    (by
      refine ⟨hD, ?_, Or.inl ?_⟩
      · simp [sleepPrepare_log, cycles_prepareLog, waits_prepareLog]
      · simp [sleepPrepare_log, waits_prepareLog])
    (by
      rintro e d h0 ⟨hd, hsum, hwt⟩
      have hw0 : waits e.log = [] := by
        rcases hwt with h | ⟨h, _⟩
        · exact h
        · omega
      by_cases h16 : d < 16
      · rw [loopBody_wait e h16]
        refine ⟨by omega, ?_, Or.inr ⟨rfl, d, h0, by omega, ?_⟩⟩
        · simp only [cycles_append, waits_append, cycles_delay, waits_delay, hw0] at hsum ⊢
          simp at hsum ⊢
          omega
        · simp only [waits_append, waits_delay, hw0]
          rfl
      · obtain ⟨p, k, hpk, hkd, _, heq⟩ := loopBody_cycle e (Nat.le_of_not_lt h16)
        rw [heq]
        have hsub := sub32_of_le hkd hd
        refine ⟨by omega, ?_, Or.inl ?_⟩
        · simp only [cycles_append, waits_append, cycles_cycleLog, waits_cycleLog, hw0]
            at hsum ⊢
          simp at hsum ⊢
          omega
        · simp only [waits_append, waits_cycleLog, hw0]
          rfl)
  refine ⟨e', he', by simpa using hsum, ?_⟩
  rcases hw' with h | ⟨_, h⟩
  · exact Or.inl h
  · exact Or.inr h

/-- C1 (as amended): for every 32-bit duration D >= 16, the wake-source cycle
lengths of `sleep(D)` together with the bounded waits sum to exactly D, and the
bounded waits take at most 15 ms of it; so the cycle lengths sum to D minus a
remainder below 16 that is served by the bounded wait. -/
theorem C1_cycles_sum_up_to_remainder (self : TinySleeper_t) (hw : Hw) (D : Nat)
    (h16 : 16 ≤ D) (h32 : D < 4294967296) :
    ∃ e, sleep self hw D = some e ∧
      (cycles e.log).sum + (waits e.log).sum = D ∧ (waits e.log).sum ≤ 15 ∧
      D - 15 ≤ (cycles e.log).sum ∧ (cycles e.log).sum ≤ D := by
  obtain ⟨e', he', hsum, hw'⟩ := sleep_account self hw D h32
  refine ⟨sleepRestore e', he', by simpa using hsum, ?_⟩
  have hle : (waits e'.log).sum ≤ 15 := by
    rcases hw' with h | ⟨r, _, hr, h⟩
    · simp [h]
    · simp [h, hr]
  simp only [sleepRestore_log]
  omega

/-- C1 (as amended), applied: `sleep(8517)`. -/
theorem C1_cycles_sum_up_to_remainder_witness :
    (16 ≤ 8517 ∧ 8517 < 4294967296) ∧
    ∃ e, sleep TinySleeper hwRunning 8517 = some e ∧
      (cycles e.log).sum + (waits e.log).sum = 8517 ∧ (waits e.log).sum ≤ 15 ∧
      8517 - 15 ≤ (cycles e.log).sum ∧ (cycles e.log).sum ≤ 8517 :=
  ⟨by decide,
    C1_cycles_sum_up_to_remainder TinySleeper hwRunning 8517 (by decide) (by decide)⟩

/-- C1 (as stated) fails: `sleep(17)` executes the single cycle of 16 ms, whose
length is not 17; the last millisecond is a bounded wait. -/
theorem C1_counterexample :
    16 ≤ 17 ∧ 17 < 4294967296 ∧
      (sleep TinySleeper hwRunning 17).map (fun e => cycles e.log) = some [16] ∧
      (sleep TinySleeper hwRunning 17).map (fun e => (cycles e.log).sum) ≠ some 17 ∧
      (sleep TinySleeper hwRunning 17).map (fun e => waits e.log) = some [1] := by
  refine ⟨by decide, by decide, ?_, ?_, ?_⟩ <;> decide

/-! ## Greedy choice of the cycle length -/

/-- Every cycle marker of a loop iteration's log fragment records the largest
menu interval that fits the remaining duration. -/
theorem cycleLog_greedy {I : Bool} {w d k : Nat} {p : Int} (hk : k ∈ menu) (hkd : k ≤ d)
    (hbig : ∀ m ∈ menu, m ≤ d → m ≤ k) :
    ∀ x ∈ cycleLog I w d k p, ∀ r i q, x.ev = Event.cycle r i q →
      i ∈ menu ∧ i ≤ r ∧ ∀ m ∈ menu, m ≤ r → m ≤ i := by
  cases I <;> simp only [cycleLog, if_true, if_false, Bool.false_eq_true, List.append_nil,
    List.cons_append, List.nil_append, List.forall_mem_cons, Event.cycle.injEq, reduceCtorEq,
    false_imp_iff, implies_true, and_true, List.not_mem_nil, and_imp] <;>
  · rintro r i q rfl rfl rfl
    exact ⟨hk, hkd, hbig⟩

theorem prepareLog_no_cycle (I bod : Bool) :
    ∀ x ∈ prepareLog I bod, ∀ r i q, x.ev ≠ Event.cycle r i q := by
  cases bod <;> simp [prepareLog]

theorem sleepLoop_succ_pos (fuel : Nat) (e : Exec) {d : Nat} (h : 0 < d) :
    sleepLoop (fuel + 1) e d = sleepLoop fuel (loopBody e d).1 (loopBody e d).2 := by
  simp [sleepLoop, h]

theorem sleepLoop_succ_zero (fuel : Nat) (e : Exec) :
    sleepLoop (fuel + 1) e 0 = some (e, 0) := by
  simp [sleepLoop]

/-- A loop iteration whose selection takes a branch, in closed form. -/
theorem loopBody_of_select (e : Exec) {d d' k : Nat} {p : Int}
    (hsel : selectPrescaler d = ⟨p, d', k⟩) (hp : p ≠ -1) :
    loopBody e d =
      ({ self := e.self
         hw := { e.hw with SE := false
                           WDTCR := if e.hw.I then 0 else wdt_prescaler_bits p }
         log := e.log ++ cycleLog e.hw.I e.hw.WDTCR d k p }, d') := by
  cases hI : e.hw.I <;>
    simp [loopBody, hsel, hp, setupWdtForWakeup_eq, systemGoToSleep_eq, cycleLog, hI]

/-- One unfolding of the loop at an iteration whose selection takes a branch. -/
theorem sleepLoop_succ_of_select (fuel : Nat) (e : Exec) {d d' k : Nat} {p : Int}
    (hsel : selectPrescaler d = ⟨p, d', k⟩) (hp : p ≠ -1) (h0 : 0 < d) :
    sleepLoop (fuel + 1) e d =
      sleepLoop fuel
        { self := e.self
          hw := { e.hw with SE := false
                            WDTCR := if e.hw.I then 0 else wdt_prescaler_bits p }
          log := e.log ++ cycleLog e.hw.I e.hw.WDTCR d k p } d' := by
  rw [sleepLoop_succ_pos fuel e h0, loopBody_of_select e hsel hp]

/-- C2: every wake-source cycle of `sleep(D)` has the length of the largest
menu interval that does not exceed the duration remaining when the cycle is
chosen (in particular a menu member); and `sleep(8500)` executes exactly the
cycles 8000, 500 and no bounded wait. -/
theorem C2_cycles_are_largest_fit (self : TinySleeper_t) (hw : Hw) :
    (∀ D : Nat, ∃ e, sleep self hw D = some e ∧
      ∀ x ∈ e.log, ∀ r i q, x.ev = Event.cycle r i q →
        i ∈ menu ∧ i ≤ r ∧ ∀ m ∈ menu, m ≤ r → m ≤ i) ∧
    (∃ e, sleep self hw 8500 = some e ∧ cycles e.log = [8000, 500] ∧ waits e.log = []) := by
  constructor
  · intro D
    obtain ⟨e', he', hP⟩ := sleep_inv
      (fun e _ => ∀ x ∈ e.log, ∀ r i q, x.ev = Event.cycle r i q →
        i ∈ menu ∧ i ≤ r ∧ ∀ m ∈ menu, m ≤ r → m ≤ i)
      self hw D
      (by
        intro x hx r i q hev
        rw [sleepPrepare_log] at hx
        exact absurd hev (prepareLog_no_cycle _ _ x (by simpa using hx) r i q))
      (by
        intro e d h0 hP
        by_cases h16 : d < 16
        · rw [loopBody_wait e h16]
          intro x hx r i q hev
          rcases List.mem_append.1 hx with h | h
          · exact hP x h r i q hev
          · rw [List.mem_singleton] at h
            subst h
            simp at hev
        · obtain ⟨p, k, hpk, hkd, hbig, heq⟩ := loopBody_cycle e (Nat.le_of_not_lt h16)
          rw [heq]
          intro x hx r i q hev
          rcases List.mem_append.1 hx with h | h
          · exact hP x h r i q hev
          · exact cycleLog_greedy (branchTable_mem hpk).2.2.2.2.2 hkd hbig x h r i q hev)
    exact ⟨sleepRestore e', he', by simpa using hP⟩
  · have h1 : selectPrescaler 8500 = ⟨9, 500, 8000⟩ := by decide
    have h2 : selectPrescaler 500 = ⟨5, 0, 500⟩ := by decide
    have hrun : ∃ e', sleepLoop (8500 + 1) (sleepPrepare ⟨self, hw, []⟩) 8500 = some (e', 0) ∧
        cycles e'.log = [8000, 500] ∧ waits e'.log = [] := by
      rw [sleepLoop_succ_of_select 8500 _ h1 (by decide) (by decide),
        sleepLoop_succ_of_select 8499 _ h2 (by decide) (by decide),
        sleepLoop_succ_zero 8498]
      exact ⟨_, rfl,
        by simp [sleepPrepare_log, cycles_append, cycles_prepareLog, cycles_cycleLog],
        by simp [sleepPrepare_log, waits_append, waits_prepareLog, waits_cycleLog]⟩
    obtain ⟨e', he', hc, hwt⟩ := hrun
    exact ⟨sleepRestore e', sleep_of_sleepLoop he', by simpa using hc, by simpa using hwt⟩

/-! ## Durations below the smallest interval -/

/-- Closed form of `sleep(0)`: the loop body is not entered. -/
theorem sleep_zero (self : TinySleeper_t) (hw : Hw) :
    sleep self hw 0 = some (sleepRestore (sleepPrepare ⟨self, hw, []⟩)) := by
  simp [sleep, sleepLoop]

/-- Closed form of `sleep(D)` for 1 <= D <= 15: one iteration, the bounded wait. -/
theorem sleep_short (self : TinySleeper_t) (hw : Hw) {D : Nat} (h1 : 1 ≤ D) (h15 : D ≤ 15) :
    sleep self hw D =
      some (sleepRestore
        { sleepPrepare ⟨self, hw, []⟩ with
          log := (sleepPrepare ⟨self, hw, []⟩).log ++
            [⟨.delay D, (sleepPrepare ⟨self, hw, []⟩).hw.I⟩] }) := by
  obtain ⟨n, rfl⟩ : ∃ n, D = n + 1 := ⟨D - 1, by omega⟩
  unfold sleep
  rw [sleepLoop_succ_pos _ _ (by omega), loopBody_wait _ (by omega), sleepLoop_succ_zero]

@[simp]
theorem sleepPrepare_WDTCR (e : Exec) : (sleepPrepare e).hw.WDTCR = e.hw.WDTCR := by
  cases hb : e.self._bodSleepDisable <;> cases hp : e.self._pinManagementEnabled <;>
    simp [sleepPrepare, saveSystemStates, savePinStates, setPinsToLowPower,
      power_adc_disable, power_timer1_disable, power_analog_comp_disable, set_sleep_mode,
      cli, wdt_reset, sleep_enable, sleep_bod_disable, sei, emit, hb, hp]

@[simp]
theorem sleepRestore_WDTCR (e : Exec) : (sleepRestore e).hw.WDTCR = e.hw.WDTCR := by
  simp only [sleepRestore, restoreSystemStates, power_adc_enable, power_timer1_enable,
    power_analog_comp_enable, restorePinStates]
  split_ifs <;> rfl

/-- C3: for 1 <= D <= 15, `sleep(D)` executes no wake-source cycle: nothing is
stored to the watchdog control register, which keeps its value, and the sleep
instruction is not issued; it executes exactly one bounded wait, of length D. -/
theorem C3_short_duration_single_wait (self : TinySleeper_t) (hw : Hw) (D : Nat)
    (h1 : 1 ≤ D) (h15 : D ≤ 15) :
    ∃ e, sleep self hw D = some e ∧ cycles e.log = [] ∧ wdtcrWrites e.log = [] ∧
      e.hw.WDTCR = hw.WDTCR ∧ sleepInstrCount e.log = 0 ∧ waits e.log = [D] := by
  refine ⟨_, sleep_short self hw h1 h15, ?_, ?_, ?_, ?_, ?_⟩
  · simp [sleepPrepare_log, cycles_append, cycles_prepareLog, cycles_delay]
  · simp [sleepPrepare_log, wdtcrWrites_append, wdtcrWrites_prepareLog]
    rfl
  · simp
  · simp [sleepPrepare_log, sleepInstrCount_append, sleepInstrCount_prepareLog]
    rfl
  · simp [sleepPrepare_log, waits_append, waits_prepareLog, waits_delay]

/-- C3, applied: `sleep(10)`. -/
theorem C3_short_duration_single_wait_witness :
    (1 ≤ 10 ∧ 10 ≤ 15) ∧
    ∃ e, sleep TinySleeper hwRunning 10 = some e ∧ cycles e.log = [] ∧
      wdtcrWrites e.log = [] ∧ e.hw.WDTCR = hwRunning.WDTCR ∧ sleepInstrCount e.log = 0 ∧
      waits e.log = [10] :=
  ⟨by decide, C3_short_duration_single_wait TinySleeper hwRunning 10 (by decide) (by decide)⟩

/-- C4: `sleep(0)` does not enter the loop body: the call is the preparation
phase followed at once by the restoration phase, and it executes no wake-source
cycle (no store to the watchdog control register, no sleep instruction) and no
bounded wait. -/
theorem C4_zero_duration_no_cycle_no_wait (self : TinySleeper_t) (hw : Hw) :
    sleep self hw 0 = some (sleepRestore (sleepPrepare ⟨self, hw, []⟩)) ∧
    ∃ e, sleep self hw 0 = some e ∧ cycles e.log = [] ∧ wdtcrWrites e.log = [] ∧
      sleepInstrCount e.log = 0 ∧ waits e.log = [] ∧
      e.log = prepareLog hw.I self._bodSleepDisable := by
  refine ⟨sleep_zero self hw, _, sleep_zero self hw, ?_, ?_, ?_, ?_, ?_⟩
  · simp [sleepPrepare_log, cycles_prepareLog]
  · simp [sleepPrepare_log, wdtcrWrites_prepareLog]
  · simp [sleepPrepare_log, sleepInstrCount_prepareLog]
  · simp [sleepPrepare_log, waits_prepareLog]
  · simp [sleepPrepare_log]

/-! ## Termination of the loop -/

/-- One iteration, seen on the remaining duration alone: it drops by exactly a
menu interval, or the iteration is the bounded wait and it drops to 0. -/
theorem loopBody_snd_exact (e : Exec) {d : Nat} (h0 : 0 < d) (hd : d < 4294967296) :
    (loopBody e d).2 < d ∧
      (d - (loopBody e d).2 ∈ menu ∨ (d < 16 ∧ (loopBody e d).2 = 0)) := by
  refine ⟨loopBody_snd_lt e h0, ?_⟩
  by_cases h16 : d < 16
  · rw [loopBody_wait e h16]
    exact Or.inr ⟨h16, rfl⟩
  · obtain ⟨p, k, hpk, hkd, _, heq⟩ := loopBody_cycle e (Nat.le_of_not_lt h16)
    rw [heq]
    left
    have hk := (branchTable_mem hpk).2.2.2.2.2
    have hsub := sub32_of_le hkd hd
    simp only [hsub]
    have : d - (d - k) = k := by omega
    rw [this]
    exact hk

theorem remainders_spec (fuel : Nat) :
    ∀ (e : Exec) (d : Nat), d < fuel → d < 4294967296 →
      (remainders fuel e d).head? = some d ∧
      List.Chain' (fun a b => b < a ∧ (a - b ∈ menu ∨ (a < 16 ∧ b = 0)))
        (remainders fuel e d) ∧
      (remainders fuel e d).getLast? = some 0 := by
  induction fuel with
  | zero => intro e d hd; omega
  | succ n ih =>
    intro e d hd h32
    by_cases h0 : 0 < d
    · obtain ⟨hlt, hex⟩ := loopBody_snd_exact e h0 h32
      obtain ⟨hhead, hchain, hlast⟩ :=
        ih (loopBody e d).1 (loopBody e d).2 (by omega) (by omega)
      have hunf : remainders (n + 1) e d =
          d :: remainders n (loopBody e d).1 (loopBody e d).2 := by
        simp [remainders, h0]
      rw [hunf]
      refine ⟨rfl, ?_, ?_⟩
      · rw [List.chain'_cons']
        refine ⟨?_, hchain⟩
        intro b hb
        rw [hhead] at hb
        obtain rfl : (loopBody e d).2 = b := by simpa using hb
        exact ⟨hlt, hex⟩
      · cases hl : remainders n (loopBody e d).1 (loopBody e d).2 with
        | nil => rw [hl] at hhead; simp at hhead
        | cons a l => rw [hl] at hlast; rw [List.getLast?_cons_cons]; exact hlast
    · have : d = 0 := by omega
      subst this
      simp [remainders]

/-- C5: for every 32-bit duration D the loop terminates: it exits, within
`D + 1` evaluations of its condition, with remaining duration exactly 0; the
successive values of the remaining duration start at D and each is strictly
below its predecessor, the difference being exactly the menu interval subtracted
(no wrap-around) or, for the bounded wait, the whole remainder below 16. -/
theorem C5_loop_terminates (e : Exec) (D : Nat) (hD : D < 4294967296) :
    (∃ e', sleepLoop (D + 1) e D = some (e', 0)) ∧
    (remainders (D + 1) e D).head? = some D ∧
    List.Chain' (fun a b => b < a ∧ (a - b ∈ menu ∨ (a < 16 ∧ b = 0)))
      (remainders (D + 1) e D) ∧
    (remainders (D + 1) e D).getLast? = some 0 :=
  ⟨sleepLoop_total e D, remainders_spec (D + 1) e D (by omega) hD⟩

/-- C5, applied: the loop of `sleep(8517)`, whose remaining duration takes the
values 8517, 517, 17, 1, 0. -/
theorem C5_loop_terminates_witness :
    8517 < 4294967296 ∧
    remainders (8517 + 1) (sleepPrepare ⟨TinySleeper, hwRunning, []⟩) 8517 =
      [8517, 517, 17, 1, 0] ∧
    (∃ e', sleepLoop (8517 + 1) (sleepPrepare ⟨TinySleeper, hwRunning, []⟩) 8517 =
      some (e', 0)) ∧
    List.Chain' (fun a b => b < a ∧ (a - b ∈ menu ∨ (a < 16 ∧ b = 0)))
      (remainders (8517 + 1) (sleepPrepare ⟨TinySleeper, hwRunning, []⟩) 8517) :=
  ⟨by decide, by decide,
    (C5_loop_terminates (sleepPrepare ⟨TinySleeper, hwRunning, []⟩) 8517 (by decide)).1,
    (C5_loop_terminates (sleepPrepare ⟨TinySleeper, hwRunning, []⟩) 8517 (by decide)).2.2.1⟩

/-! ## Bit-level facts -/

theorem testBit_u8 (x i : Nat) : (u8 x).testBit i = (decide (i < 8) && x.testBit i) := by
  have : u8 x = x % 2 ^ 8 := rfl
  rw [this, Nat.testBit_mod_two_pow]

theorem testBit_not16 (x i : Nat) :
    (not16 x).testBit i = (decide (i < 16) != x.testBit i) := by
  have : not16 x = (2 ^ 16 - 1) ^^^ x := rfl
  rw [this, Nat.testBit_xor, Nat.testBit_two_pow_sub_one]

theorem testBit_one_shiftLeft (b i : Nat) : (1 <<< b).testBit i = decide (b = i) := by
  rw [Nat.one_shiftLeft, Nat.testBit_two_pow]

theorem testBit_BV (b i : Nat) : (_BV b).testBit i = decide (b = i) :=
  testBit_one_shiftLeft b i

theorem and_BV_eq_zero (x b : Nat) : x &&& _BV b = 0 ↔ x.testBit b = false := by
  constructor
  · intro h
    have h1 : (x &&& _BV b).testBit b = false := by rw [h]; exact Nat.zero_testBit b
    rw [Nat.testBit_and, testBit_BV] at h1
    simpa using h1
  · intro h
    apply Nat.eq_of_testBit_eq
    intro i
    rw [Nat.testBit_and, testBit_BV, Nat.zero_testBit]
    by_cases hi : b = i
    · subst hi; rw [h]; rfl
    · simp [hi]

theorem bit_is_set_eq (x b : Nat) : bit_is_set x b = x.testBit b := by
  cases h : x.testBit b
  · simp [bit_is_set, (and_BV_eq_zero x b).2 h]
  · have : x &&& _BV b ≠ 0 := by
      intro h0
      rw [and_BV_eq_zero] at h0
      rw [h] at h0
      exact absurd h0 (by decide)
    simp [bit_is_set, this]

theorem bit_is_clear_eq (x b : Nat) : bit_is_clear x b = !x.testBit b := by
  cases h : x.testBit b
  · simp [bit_is_clear, (and_BV_eq_zero x b).2 h]
  · have : x &&& _BV b ≠ 0 := by
      intro h0
      rw [and_BV_eq_zero] at h0
      rw [h] at h0
      exact absurd h0 (by decide)
    simp [bit_is_clear, this]

/-- Bits of the byte stored by `set_bit`. -/
theorem testBit_set_bit (x b i : Nat) :
    (set_bit x b).testBit i = (decide (i < 8) && (x.testBit i || decide (b = i))) := by
  rw [set_bit, testBit_u8, Nat.testBit_or, testBit_BV]

/-- Bits of the byte stored by `clear_bit`. -/
theorem testBit_clear_bit (x b i : Nat) :
    (clear_bit x b).testBit i = (decide (i < 8) && (x.testBit i && !decide (b = i))) := by
  rw [clear_bit, testBit_u8, Nat.testBit_and, testBit_not16, testBit_BV]
  by_cases h8 : i < 8
  · have : i < 16 := by omega
    by_cases hb : b = i <;> simp [h8, this, hb]
  · simp [h8]

/-- Bits of the byte `(uint8_t)(1 << b)`. -/
theorem testBit_u8_shift (b i : Nat) :
    (u8 (1 <<< b)).testBit i = (decide (i < 8) && decide (b = i)) := by
  rw [testBit_u8, testBit_one_shiftLeft]

/-- Bits of the byte `(uint8_t)~(1 << b)`. -/
theorem testBit_u8_not_shift (b i : Nat) :
    (u8 (not16 (1 <<< b))).testBit i = (decide (i < 8) && !decide (b = i)) := by
  rw [testBit_u8, testBit_not16, testBit_one_shiftLeft]
  by_cases h8 : i < 8
  · have : i < 16 := by omega
    by_cases hb : b = i <;> simp [h8, this, hb]
  · simp [h8]

theorem testBit_of_lt_256 {x : Nat} (hx : x < 256) {i : Nat} (hi : ¬ i < 8) :
    x.testBit i = false := by
  have h2 : 2 ^ 8 ≤ 2 ^ i := Nat.pow_le_pow_right (by decide) (by omega)
  exact Nat.testBit_lt_two_pow (by omega)

/-! ## What the loop leaves untouched -/

/-- A loop iteration changes neither the controller object nor any register
other than the watchdog control register and the sleep-enable flag. -/
theorem loopBody_frame (e : Exec) (d : Nat) :
    (loopBody e d).1.self = e.self ∧ (loopBody e d).1.hw.DDRB = e.hw.DDRB ∧
    (loopBody e d).1.hw.PORTB = e.hw.PORTB ∧ (loopBody e d).1.hw.ADCSRA = e.hw.ADCSRA ∧
    (loopBody e d).1.hw.PRR = e.hw.PRR ∧ (loopBody e d).1.hw.ACSR = e.hw.ACSR ∧
    (loopBody e d).1.hw.I = e.hw.I := by
  by_cases h16 : d < 16
  · rw [loopBody_wait e h16]
    simp
  · obtain ⟨p, k, _, _, _, heq⟩ := loopBody_cycle e (Nat.le_of_not_lt h16)
    rw [heq]
    simp

/-- The state `sleep` restores from agrees with the state after the preparation
phase on the controller object and on every register the loop does not write. -/
theorem sleep_frame (self : TinySleeper_t) (hw : Hw) (D : Nat) :
    ∃ e', sleep self hw D = some (sleepRestore e') ∧
      e'.self = (sleepPrepare ⟨self, hw, []⟩).self ∧
      e'.hw.DDRB = (sleepPrepare ⟨self, hw, []⟩).hw.DDRB ∧
      e'.hw.PORTB = (sleepPrepare ⟨self, hw, []⟩).hw.PORTB ∧
      e'.hw.ADCSRA = (sleepPrepare ⟨self, hw, []⟩).hw.ADCSRA ∧
      e'.hw.PRR = (sleepPrepare ⟨self, hw, []⟩).hw.PRR ∧
      e'.hw.ACSR = (sleepPrepare ⟨self, hw, []⟩).hw.ACSR ∧
      e'.hw.I = (sleepPrepare ⟨self, hw, []⟩).hw.I := by
  refine sleep_inv
    (fun e _ => e.self = (sleepPrepare ⟨self, hw, []⟩).self ∧
      e.hw.DDRB = (sleepPrepare ⟨self, hw, []⟩).hw.DDRB ∧
      e.hw.PORTB = (sleepPrepare ⟨self, hw, []⟩).hw.PORTB ∧
      e.hw.ADCSRA = (sleepPrepare ⟨self, hw, []⟩).hw.ADCSRA ∧
      e.hw.PRR = (sleepPrepare ⟨self, hw, []⟩).hw.PRR ∧
      e.hw.ACSR = (sleepPrepare ⟨self, hw, []⟩).hw.ACSR ∧
      e.hw.I = (sleepPrepare ⟨self, hw, []⟩).hw.I)
    self hw D ⟨rfl, rfl, rfl, rfl, rfl, rfl, rfl⟩ ?_
  rintro e d _ ⟨h1, h2, h3, h4, h5, h6, h7⟩
  obtain ⟨g1, g2, g3, g4, g5, g6, g7⟩ := loopBody_frame e d
  exact ⟨g1.trans h1, g2.trans h2, g3.trans h3, g4.trans h4, g5.trans h5, g6.trans h6,
    g7.trans h7⟩

/-! ## Closed forms of the preparation and restoration phases -/

theorem sleepPrepare_self (e : Exec) :
    (sleepPrepare e).self =
      { e.self with
        _wasAdcEnabled := bit_is_set e.hw.ADCSRA ADEN
        _wasTimer1Enabled := bit_is_clear e.hw.PRR PRTIM1
        _wasAnalogCompEnabled := bit_is_clear e.hw.ACSR ACD
        _savedDDRB := if e.self._pinManagementEnabled then e.hw.DDRB else e.self._savedDDRB
        _savedPORTB :=
          if e.self._pinManagementEnabled then e.hw.PORTB else e.self._savedPORTB } := by
  cases hb : e.self._bodSleepDisable <;> cases hp : e.self._pinManagementEnabled <;>
    simp [sleepPrepare, saveSystemStates, savePinStates, setPinsToLowPower,
      power_adc_disable, power_timer1_disable, power_analog_comp_disable, set_sleep_mode,
      cli, wdt_reset, sleep_enable, sleep_bod_disable, sei, emit, hb, hp]

theorem sleepPrepare_hw (e : Exec) :
    (sleepPrepare e).hw =
      { e.hw with
        DDRB := if e.self._pinManagementEnabled then
            u8 (e.hw.DDRB &&& e.self._excludedPinsMask) else e.hw.DDRB
        PORTB := if e.self._pinManagementEnabled then
            u8 ((e.hw.PORTB &&& e.self._excludedPinsMask) ||| not16 e.self._excludedPinsMask)
          else e.hw.PORTB
        PRR := u8 (u8 (e.hw.PRR ||| u8 (1 <<< PRADC)) ||| u8 (1 <<< PRTIM1))
        ACSR := set_bit e.hw.ACSR ACD
        SE := true
        I := true } := by
  cases hb : e.self._bodSleepDisable <;> cases hp : e.self._pinManagementEnabled <;>
    simp [sleepPrepare, saveSystemStates, savePinStates, setPinsToLowPower,
      power_adc_disable, power_timer1_disable, power_analog_comp_disable, set_sleep_mode,
      cli, wdt_reset, sleep_enable, sleep_bod_disable, sei, emit, hb, hp]

theorem sleepRestore_self (e : Exec) : (sleepRestore e).self = e.self := by
  simp only [sleepRestore, restoreSystemStates, power_adc_enable, power_timer1_enable,
    power_analog_comp_enable, restorePinStates]
  split_ifs <;> rfl

theorem sleepRestore_pins (e : Exec) :
    (sleepRestore e).hw.DDRB =
      (if e.self._pinManagementEnabled then e.self._savedDDRB else e.hw.DDRB) ∧
    (sleepRestore e).hw.PORTB =
      (if e.self._pinManagementEnabled then e.self._savedPORTB else e.hw.PORTB) := by
  simp only [sleepRestore, restoreSystemStates, power_adc_enable, power_timer1_enable,
    power_analog_comp_enable, restorePinStates]
  split_ifs <;> exact ⟨rfl, rfl⟩

theorem sleepRestore_peripherals (e : Exec) :
    (sleepRestore e).hw.ADCSRA = e.hw.ADCSRA ∧
    (sleepRestore e).hw.PRR =
      (if e.self._wasTimer1Enabled then
        u8 ((if e.self._wasAdcEnabled then u8 (e.hw.PRR &&& u8 (not16 (1 <<< PRADC)))
             else e.hw.PRR) &&& u8 (not16 (1 <<< PRTIM1)))
       else if e.self._wasAdcEnabled then u8 (e.hw.PRR &&& u8 (not16 (1 <<< PRADC)))
       else e.hw.PRR) ∧
    (sleepRestore e).hw.ACSR =
      (if e.self._wasAnalogCompEnabled then clear_bit e.hw.ACSR ACD else e.hw.ACSR) := by
  simp only [sleepRestore, restoreSystemStates, power_adc_enable, power_timer1_enable,
    power_analog_comp_enable, restorePinStates]
  split_ifs <;> exact ⟨rfl, rfl, rfl⟩

/-! ## Pins -/

/-- C6: whatever DDRB and PORTB hold, whatever the excluded-pin mask, with pin
management enabled or disabled, and for every duration, `sleep` returns with
DDRB and PORTB holding the values they had at the call; and save, low-power
transform, restore is the identity on the hardware state. -/
theorem C6_pin_registers_restored (self : TinySleeper_t) (hw : Hw) (D : Nat) :
    (∃ e, sleep self hw D = some e ∧ e.hw.DDRB = hw.DDRB ∧ e.hw.PORTB = hw.PORTB) ∧
    (∀ e : Exec, (restorePinStates (setPinsToLowPower (savePinStates e))).hw = e.hw) := by
  constructor
  · obtain ⟨e', he', hself, hD, hP, _⟩ := sleep_frame self hw D
    refine ⟨sleepRestore e', he', ?_, ?_⟩
    · rw [(sleepRestore_pins e').1, hself, hD, sleepPrepare_self, sleepPrepare_hw]
      cases self._pinManagementEnabled <;> simp
    · rw [(sleepRestore_pins e').2, hself, hP, sleepPrepare_self, sleepPrepare_hw]
      cases self._pinManagementEnabled <;> simp
  · intro e
    rfl

/-- C7: after `setPinsToLowPower`, at every bit position 0..7, a pin whose mask
bit is set keeps its DDRB and PORTB bits, and a pin whose mask bit is clear has
DDRB bit 0 (input) and PORTB bit 1 (pull-up). -/
theorem C7_low_power_transform_bits (e : Exec) (i : Nat) (hi : i < 8) :
    (e.self._excludedPinsMask.testBit i = true →
      (setPinsToLowPower e).hw.DDRB.testBit i = e.hw.DDRB.testBit i ∧
      (setPinsToLowPower e).hw.PORTB.testBit i = e.hw.PORTB.testBit i) ∧
    (e.self._excludedPinsMask.testBit i = false →
      (setPinsToLowPower e).hw.DDRB.testBit i = false ∧
      (setPinsToLowPower e).hw.PORTB.testBit i = true) := by
  have h16 : i < 16 := by omega
  constructor <;> intro hm <;>
    simp [setPinsToLowPower, testBit_u8, testBit_not16, hi, h16, hm]

/-- C7, applied: PB1 excluded (mask 2), DDRB = 3, PORTB = 1. Bit 1 keeps
direction output and level low; bit 0 becomes an input with pull-up. -/
theorem C7_low_power_transform_bits_witness :
    (1 < 8 ∧ 0 < 8) ∧
    ((setPinsToLowPower ⟨TinySleeper.excludePin 1, hwRunning, []⟩).hw.DDRB.testBit 1 =
        hwRunning.DDRB.testBit 1 ∧
      (setPinsToLowPower ⟨TinySleeper.excludePin 1, hwRunning, []⟩).hw.PORTB.testBit 1 =
        hwRunning.PORTB.testBit 1) ∧
    ((setPinsToLowPower ⟨TinySleeper.excludePin 1, hwRunning, []⟩).hw.DDRB.testBit 0 = false ∧
      (setPinsToLowPower ⟨TinySleeper.excludePin 1, hwRunning, []⟩).hw.PORTB.testBit 0 = true) :=
  ⟨by decide,
    (C7_low_power_transform_bits ⟨TinySleeper.excludePin 1, hwRunning, []⟩ 1 (by decide)).1
      (by decide),
    (C7_low_power_transform_bits ⟨TinySleeper.excludePin 1, hwRunning, []⟩ 0 (by decide)).2
      (by decide)⟩

/-! ## Peripherals -/

/-- Bits of the power reduction register after the unconditional power-down of
`sleepPrepare` followed by the conditional power-up of `sleepRestore`, with `a`
and `t` the recorded ADC and Timer1 states. -/
theorem testBit_PRR_after (x : Nat) (a t : Bool) (i : Nat) :
    (if t then
        u8 ((if a then u8 (u8 (u8 (x ||| u8 (1 <<< PRADC)) ||| u8 (1 <<< PRTIM1)) &&&
                u8 (not16 (1 <<< PRADC)))
             else u8 (u8 (x ||| u8 (1 <<< PRADC)) ||| u8 (1 <<< PRTIM1))) &&&
          u8 (not16 (1 <<< PRTIM1)))
      else if a then u8 (u8 (u8 (x ||| u8 (1 <<< PRADC)) ||| u8 (1 <<< PRTIM1)) &&&
                u8 (not16 (1 <<< PRADC)))
      else u8 (u8 (x ||| u8 (1 <<< PRADC)) ||| u8 (1 <<< PRTIM1))).testBit i =
      (decide (i < 8) &&
        (if i = PRADC then !a else if i = PRTIM1 then !t else x.testBit i)) := by
  have hne : PRTIM1 ≠ PRADC := by decide
  have hne' : PRADC ≠ PRTIM1 := by decide
  have h08 : PRADC < 8 := by decide
  have h38 : PRTIM1 < 8 := by decide
  have h016 : PRADC < 16 := by decide
  have h316 : PRTIM1 < 16 := by decide
  cases a <;> cases t <;>
    simp only [if_true, if_false, Bool.false_eq_true, testBit_u8, Nat.testBit_and,
      Nat.testBit_or, testBit_not16, testBit_one_shiftLeft] <;>
    (by_cases h0 : i = PRADC
     · subst h0
       cases x.testBit PRADC <;> simp [hne, hne', h08, h016]
     · have h0' : ¬ PRADC = i := fun h => h0 h.symm
       by_cases h3 : i = PRTIM1
       · subst h3
         cases x.testBit PRTIM1 <;> simp [hne, hne', h38, h316]
       · have h3' : ¬ PRTIM1 = i := fun h => h3 h.symm
         by_cases h8 : i < 8
         · have h16 : i < 16 := by omega
           cases x.testBit i <;> simp [h0, h0', h3, h3', h8, h16]
         · simp [h8])

/-- Closed form, bit by bit, of the peripheral registers when `sleep` returns. -/
theorem sleep_peripherals (self : TinySleeper_t) (hw : Hw) (D : Nat) :
    ∃ e, sleep self hw D = some e ∧ e.hw.ADCSRA = hw.ADCSRA ∧
      (∀ i, e.hw.PRR.testBit i =
        (decide (i < 8) &&
          (if i = PRADC then !hw.ADCSRA.testBit ADEN else hw.PRR.testBit i))) ∧
      (∀ i, e.hw.ACSR.testBit i = (decide (i < 8) && hw.ACSR.testBit i)) := by
  obtain ⟨e', he', hself, _, _, hA, hP, hC, _⟩ := sleep_frame self hw D
  obtain ⟨rA, rP, rC⟩ := sleepRestore_peripherals e'
  refine ⟨sleepRestore e', he', ?_, ?_, ?_⟩
  · rw [rA, hA, sleepPrepare_hw]
  · intro i
    rw [rP, hself, hP, sleepPrepare_self, sleepPrepare_hw]
    simp only [bit_is_set_eq, bit_is_clear_eq]
    rw [testBit_PRR_after]
    by_cases h0 : i = PRADC
    · simp [h0]
    · by_cases h3 : i = PRTIM1
      · simp [h0, h3, PRADC, PRTIM1]
      · simp [h0, h3]
  · intro i
    rw [rC, hself, hC, sleepPrepare_self, sleepPrepare_hw]
    simp only [bit_is_clear_eq]
    have h78 : ACD < 8 := by decide
    by_cases h7 : ACD = i
    · subst h7
      cases hb : hw.ACSR.testBit ACD <;>
        simp [testBit_clear_bit, testBit_set_bit, hb, h78]
    · cases hb : hw.ACSR.testBit ACD <;>
        simp [testBit_clear_bit, testBit_set_bit, hb, h7]

/-- C8: for each of the ADC, Timer1 and the analog comparator, if
`saveSystemStates` records the peripheral as not enabled at the start of
`sleep(D)`, the peripheral is disabled when `sleep(D)` returns: it is again
observed as not enabled, and for the ADC the power-reduction bit set by the
unconditional disable is still set. -/
theorem C8_disabled_peripherals_stay_disabled (self : TinySleeper_t) (hw : Hw) (D : Nat) :
    ∃ e, sleep self hw D = some e ∧
      ((saveSystemStates ⟨self, hw, []⟩).self._wasAdcEnabled = false →
        (saveSystemStates e).self._wasAdcEnabled = false ∧
        e.hw.PRR.testBit PRADC = true) ∧
      ((saveSystemStates ⟨self, hw, []⟩).self._wasTimer1Enabled = false →
        (saveSystemStates e).self._wasTimer1Enabled = false) ∧
      ((saveSystemStates ⟨self, hw, []⟩).self._wasAnalogCompEnabled = false →
        (saveSystemStates e).self._wasAnalogCompEnabled = false) := by
  obtain ⟨e, he, hA, hP, hC⟩ := sleep_peripherals self hw D
  refine ⟨e, he, ?_, ?_, ?_⟩
  · intro h
    simp only [saveSystemStates, bit_is_set_eq] at h ⊢
    rw [hA, hP]
    simp [h, PRADC]
  · intro h
    simp only [saveSystemStates, bit_is_clear_eq] at h ⊢
    rw [hP]
    simpa [PRADC, PRTIM1] using h
  · intro h
    simp only [saveSystemStates, bit_is_clear_eq] at h ⊢
    rw [hC]
    simpa [ACD] using h

/-- C8, applied: all three peripherals disabled at the call of `sleep(100)`. -/
theorem C8_disabled_peripherals_stay_disabled_witness :
    ((saveSystemStates ⟨TinySleeper, hwAllOff, []⟩).self._wasAdcEnabled = false ∧
      (saveSystemStates ⟨TinySleeper, hwAllOff, []⟩).self._wasTimer1Enabled = false ∧
      (saveSystemStates ⟨TinySleeper, hwAllOff, []⟩).self._wasAnalogCompEnabled = false) ∧
    ∃ e, sleep TinySleeper hwAllOff 100 = some e ∧
      ((saveSystemStates e).self._wasAdcEnabled = false ∧ e.hw.PRR.testBit PRADC = true) ∧
      (saveSystemStates e).self._wasTimer1Enabled = false ∧
      (saveSystemStates e).self._wasAnalogCompEnabled = false :=
  ⟨by decide,
    (C8_disabled_peripherals_stay_disabled TinySleeper hwAllOff 100).elim
      fun e h => ⟨e, h.1, h.2.1 (by decide), h.2.2.1 (by decide), h.2.2.2 (by decide)⟩⟩

/-- C9: the code does not return the ADC power-reduction bit to its pre-call
value. `saveSystemStates` records the ADC from `ADEN` of ADCSRA, while the
disable and the conditional re-enable write `PRADC` of PRR. Called with `ADEN`
clear and `PRADC` clear, `sleep(100)` returns with `PRADC` set; called with
`ADEN` set and `PRADC` set, it returns with `PRADC` clear. In both runs ADCSRA,
ACSR and the Timer1 bit of PRR, whose paths test the bit they write, have their
pre-call values. -/
theorem C9_adc_power_bit_not_restored :
    (hwAdcOff.ADCSRA.testBit ADEN = false ∧ hwAdcOff.PRR.testBit PRADC = false ∧
      (sleep TinySleeper hwAdcOff 100).map (fun e => e.hw.PRR.testBit PRADC) = some true ∧
      (sleep TinySleeper hwAdcOff 100).map
        (fun e => (e.hw.ADCSRA, e.hw.ACSR, e.hw.PRR.testBit PRTIM1)) =
        some (hwAdcOff.ADCSRA, hwAdcOff.ACSR, hwAdcOff.PRR.testBit PRTIM1)) ∧
    (hwAdcPoweredDown.ADCSRA.testBit ADEN = true ∧
      hwAdcPoweredDown.PRR.testBit PRADC = true ∧
      (sleep TinySleeper hwAdcPoweredDown 100).map (fun e => e.hw.PRR.testBit PRADC) =
        some false ∧
      (sleep TinySleeper hwAdcPoweredDown 100).map
        (fun e => (e.hw.ADCSRA, e.hw.ACSR, e.hw.PRR.testBit PRTIM1)) =
        some (hwAdcPoweredDown.ADCSRA, hwAdcPoweredDown.ACSR,
          hwAdcPoweredDown.PRR.testBit PRTIM1)) := by
  decide

/-! ## Out-of-range pin exclusion -/

/-- C10: for every pin index p >= 6 and every controller state, `excludePin(p)`
leaves the controller (mask and every other member) unchanged, so every
subsequent `sleep` call behaves as if `excludePin(p)` had not been called. -/
theorem C10_excludePin_out_of_range (self : TinySleeper_t) (p : Nat) (hp : 6 ≤ p) :
    self.excludePin p = self ∧
    ∀ (hw : Hw) (D : Nat), sleep (self.excludePin p) hw D = sleep self hw D := by
  have h : self.excludePin p = self := by
    unfold TinySleeper_t.excludePin ATTINY_IO_PINS
    rw [if_neg (by omega)]
  exact ⟨h, fun hw D => by rw [h]⟩

/-- C10, applied: `excludePin(200)`. -/
theorem C10_excludePin_out_of_range_witness :
    6 ≤ 200 ∧ TinySleeper.excludePin 200 = TinySleeper ∧
      ∀ (hw : Hw) (D : Nat), sleep (TinySleeper.excludePin 200) hw D = sleep TinySleeper hw D :=
  ⟨by decide, C10_excludePin_out_of_range TinySleeper 200 (by decide)⟩

/-! ## The excluded-pin mask across calls -/

/-- Bits of the mask after `excludePin`. -/
theorem testBit_excludePin (self : TinySleeper_t) (p i : Nat) :
    (self.excludePin p)._excludedPinsMask.testBit i =
      if p < 6 then (decide (i < 8) && (self._excludedPinsMask.testBit i || decide (p = i)))
      else self._excludedPinsMask.testBit i := by
  unfold TinySleeper_t.excludePin ATTINY_IO_PINS
  by_cases hp : p < 6
  · rw [if_pos hp, if_pos hp]
    show (u8 (self._excludedPinsMask ||| 1 <<< p)).testBit i = _
    rw [testBit_u8, Nat.testBit_or, testBit_one_shiftLeft]
  · rw [if_neg hp, if_neg hp]

/-- The member `sleep` leaves the configuration members of the controller as
they are. -/
theorem sleep_config (self : TinySleeper_t) (hw : Hw) (D : Nat) :
    ∃ e, sleep self hw D = some e ∧
      e.self._excludedPinsMask = self._excludedPinsMask ∧
      e.self._pinManagementEnabled = self._pinManagementEnabled ∧
      e.self._bodSleepDisable = self._bodSleepDisable := by
  obtain ⟨e', he', hself, _⟩ := sleep_frame self hw D
  refine ⟨sleepRestore e', he', ?_, ?_, ?_⟩ <;>
    rw [sleepRestore_self, hself, sleepPrepare_self]

theorem applyCall_mask_lt (self : TinySleeper_t) (c : Call)
    (h : self._excludedPinsMask < 64) : (applyCall self c)._excludedPinsMask < 64 := by
  cases c with
  | enablePinManagement b => exact h
  | enableBodInSleep b => exact h
  | sleep hw D =>
    obtain ⟨e, he, hm, _⟩ := sleep_config self hw D
    simp only [applyCall, he]
    rw [hm]
    exact h
  | excludePin p =>
    show (self.excludePin p)._excludedPinsMask < 64
    apply Nat.lt_of_testBit 6
    · rw [testBit_excludePin]
      have h6 : self._excludedPinsMask.testBit 6 = false :=
        Nat.testBit_lt_two_pow (by omega)
      by_cases hp : p < 6
      · have : ¬ p = 6 := by omega
        simp [hp, h6, this]
      · simp [hp, h6]
    · decide
    · intro j hj
      rw [testBit_excludePin]
      have hj' : self._excludedPinsMask.testBit j = false := by
        have h2 : 2 ^ 6 ≤ 2 ^ j := Nat.pow_le_pow_right (by decide) (by omega)
        exact Nat.testBit_lt_two_pow (by omega)
      have h64 : Nat.testBit 64 j = false := by
        have : (64 : Nat) = 2 ^ 6 := rfl
        rw [this, Nat.testBit_two_pow]
        simp; omega
      by_cases hp : p < 6
      · have : ¬ p = j := by omega
        simp [hp, hj', this, h64]
      · simp [hp, hj', h64]

theorem applyCall_mask_mono (self : TinySleeper_t) (c : Call) (i : Nat) (hi8 : i < 8)
    (hi : self._excludedPinsMask.testBit i = true) :
    (applyCall self c)._excludedPinsMask.testBit i = true := by
  cases c with
  | enablePinManagement b => exact hi
  | enableBodInSleep b => exact hi
  | sleep hw D =>
    obtain ⟨e, he, hm, _⟩ := sleep_config self hw D
    simp only [applyCall, he]
    rw [hm]
    exact hi
  | excludePin p =>
    show (self.excludePin p)._excludedPinsMask.testBit i = true
    rw [testBit_excludePin]
    by_cases hp : p < 6
    · simp [hp, hi, hi8]
    · simp [hp, hi]

theorem runCalls_append_one (self : TinySleeper_t) (calls : List Call) (c : Call) :
    runCalls self (calls ++ [c]) = applyCall (runCalls self calls) c := by
  simp [runCalls, List.foldl_append]

theorem runCalls_mask_lt (self : TinySleeper_t) (h : self._excludedPinsMask < 64)
    (calls : List Call) : (runCalls self calls)._excludedPinsMask < 64 := by
  induction calls generalizing self with
  | nil => exact h
  | cons c cs ih => exact ih (applyCall self c) (applyCall_mask_lt self c h)

theorem runCalls_mask_mono (self : TinySleeper_t) (calls : List Call) (i : Nat)
    (hi8 : i < 8) (hi : self._excludedPinsMask.testBit i = true) :
    (runCalls self calls)._excludedPinsMask.testBit i = true := by
  induction calls generalizing self with
  | nil => exact hi
  | cons c cs ih => exact ih (applyCall self c) (applyCall_mask_mono self c i hi8 hi)

/-- Bits of DDRB and PORTB after `setPinsToLowPower`, for the eight pins. -/
theorem setPinsToLowPower_bits (e : Exec) (i : Nat) (hi : i < 8) :
    (setPinsToLowPower e).hw.DDRB.testBit i =
      (e.hw.DDRB.testBit i && e.self._excludedPinsMask.testBit i) ∧
    (setPinsToLowPower e).hw.PORTB.testBit i =
      ((e.hw.PORTB.testBit i && e.self._excludedPinsMask.testBit i) ||
        !e.self._excludedPinsMask.testBit i) := by
  have h16 : i < 16 := by omega
  constructor
  · show (u8 (e.hw.DDRB &&& e.self._excludedPinsMask)).testBit i = _
    rw [testBit_u8, Nat.testBit_and]
    simp [hi]
  · show (u8 ((e.hw.PORTB &&& e.self._excludedPinsMask) |||
      not16 e.self._excludedPinsMask)).testBit i = _
    rw [testBit_u8, Nat.testBit_or, Nat.testBit_and, testBit_not16]
    simp [hi, h16]

/-- C11: for every pin index p < 6 and every controller state, `excludePin(p)`
sets bit p of the excluded-pin mask, leaves the other seven mask bits and every
other member of the controller unchanged (the member function reads and writes
the controller object only, no hardware register), and is idempotent; and after
any further sequence of calls the low-power transform leaves bit p of DDRB and
of PORTB unchanged. -/
theorem C11_excludePin_in_range (self : TinySleeper_t) (p : Nat) (hp : p < 6) :
    (self.excludePin p)._excludedPinsMask.testBit p = true ∧
    (∀ i, i < 8 → i ≠ p →
      (self.excludePin p)._excludedPinsMask.testBit i = self._excludedPinsMask.testBit i) ∧
    self.excludePin p =
      { self with _excludedPinsMask := u8 (self._excludedPinsMask ||| (1 <<< p)) } ∧
    (self.excludePin p).excludePin p = self.excludePin p ∧
    (∀ (calls : List Call) (hw : Hw) (log : List Entry),
      (setPinsToLowPower ⟨runCalls (self.excludePin p) calls, hw, log⟩).hw.DDRB.testBit p =
        hw.DDRB.testBit p ∧
      (setPinsToLowPower ⟨runCalls (self.excludePin p) calls, hw, log⟩).hw.PORTB.testBit p =
        hw.PORTB.testBit p) := by
  have hp8 : p < 8 := by omega
  have hset : (self.excludePin p)._excludedPinsMask.testBit p = true := by
    rw [testBit_excludePin]
    simp [hp, hp8]
  have heq : self.excludePin p =
      { self with _excludedPinsMask := u8 (self._excludedPinsMask ||| (1 <<< p)) } := by
    unfold TinySleeper_t.excludePin ATTINY_IO_PINS
    rw [if_pos hp]
  refine ⟨hset, ?_, heq, ?_, ?_⟩
  · intro i hi hne
    rw [testBit_excludePin]
    have : ¬ p = i := fun h => hne h.symm
    simp [hp, hi, this]
  · have hmask : ((self.excludePin p).excludePin p)._excludedPinsMask =
        (self.excludePin p)._excludedPinsMask := by
      apply Nat.eq_of_testBit_eq
      intro i
      rw [testBit_excludePin, testBit_excludePin]
      by_cases hi : i < 8 <;> simp [hp, hi]
    have h2 : (self.excludePin p).excludePin p =
        { self.excludePin p with
          _excludedPinsMask := ((self.excludePin p).excludePin p)._excludedPinsMask } := by
      unfold TinySleeper_t.excludePin ATTINY_IO_PINS
      simp only [if_pos hp]
    rw [h2, hmask]
  · intro calls hw log
    have hbit := runCalls_mask_mono (self.excludePin p) calls p hp8 hset
    obtain ⟨hD, hP⟩ :=
      setPinsToLowPower_bits ⟨runCalls (self.excludePin p) calls, hw, log⟩ p hp8
    rw [hD, hP]
    simp only [hbit]
    simp

/-- C11, applied: `excludePin(1)` on the global instance, followed by an
out-of-range exclusion, enabling pin management and a `sleep(100)`. -/
theorem C11_excludePin_in_range_witness :
    1 < 6 ∧ (TinySleeper.excludePin 1)._excludedPinsMask = 2 ∧
    (TinySleeper.excludePin 1).excludePin 1 = TinySleeper.excludePin 1 ∧
    (setPinsToLowPower ⟨runCalls (TinySleeper.excludePin 1)
        [.excludePin 200, .enablePinManagement true, .sleep hwRunning 100],
        hwRunning, []⟩).hw.DDRB.testBit 1 = hwRunning.DDRB.testBit 1 :=
  ⟨by decide, by decide,
    (C11_excludePin_in_range TinySleeper 1 (by decide)).2.2.2.1,
    ((C11_excludePin_in_range TinySleeper 1 (by decide)).2.2.2.2
      [.excludePin 200, .enablePinManagement true, .sleep hwRunning 100] hwRunning []).1⟩

/-- C19: in every controller state reached from the constructor by a sequence
of `enablePinManagement`, `excludePin`, `enableBodInSleep` and `sleep` calls the
excluded-pin mask is below 64 (only bits 0..5 can be set); a further call never
clears a mask bit; and the low-power transform drives bits 6 and 7 of DDRB to 0
and bits 6 and 7 of PORTB to 1. -/
theorem C19_mask_stays_within_six_pins (raw : TinySleeper_t) (calls : List Call) :
    (runCalls (TinySleeper_t.ctor raw) calls)._excludedPinsMask < 64 ∧
    (∀ (c : Call) (i : Nat),
      (runCalls (TinySleeper_t.ctor raw) calls)._excludedPinsMask.testBit i = true →
      (runCalls (TinySleeper_t.ctor raw) (calls ++ [c]))._excludedPinsMask.testBit i = true) ∧
    (∀ (hw : Hw) (log : List Entry),
      (setPinsToLowPower ⟨runCalls (TinySleeper_t.ctor raw) calls, hw, log⟩).hw.DDRB.testBit 6
        = false ∧
      (setPinsToLowPower ⟨runCalls (TinySleeper_t.ctor raw) calls, hw, log⟩).hw.DDRB.testBit 7
        = false ∧
      (setPinsToLowPower ⟨runCalls (TinySleeper_t.ctor raw) calls, hw, log⟩).hw.PORTB.testBit 6
        = true ∧
      (setPinsToLowPower ⟨runCalls (TinySleeper_t.ctor raw) calls, hw, log⟩).hw.PORTB.testBit 7
        = true) := by
  have h0 : (TinySleeper_t.ctor raw)._excludedPinsMask < 64 := by
    show (0 : Nat) < 64
    decide
  have hlt := runCalls_mask_lt (TinySleeper_t.ctor raw) h0 calls
  have h6 : (runCalls (TinySleeper_t.ctor raw) calls)._excludedPinsMask.testBit 6 = false :=
    Nat.testBit_lt_two_pow (by omega)
  have h7 : (runCalls (TinySleeper_t.ctor raw) calls)._excludedPinsMask.testBit 7 = false :=
    Nat.testBit_lt_two_pow (by omega)
  refine ⟨hlt, ?_, ?_⟩
  · intro c i hi
    have hi8 : i < 8 := by
      by_contra hcon
      have h2 : 2 ^ 8 ≤ 2 ^ i := Nat.pow_le_pow_right (by decide) (by omega)
      have hf := Nat.testBit_lt_two_pow
        (x := (runCalls (TinySleeper_t.ctor raw) calls)._excludedPinsMask) (i := i) (by omega)
      rw [hf] at hi
      exact absurd hi (by decide)
    rw [runCalls_append_one]
    exact applyCall_mask_mono _ c i hi8 hi
  · intro hw log
    obtain ⟨hD6, hP6⟩ :=
      setPinsToLowPower_bits ⟨runCalls (TinySleeper_t.ctor raw) calls, hw, log⟩ 6 (by decide)
    obtain ⟨hD7, hP7⟩ :=
      setPinsToLowPower_bits ⟨runCalls (TinySleeper_t.ctor raw) calls, hw, log⟩ 7 (by decide)
    rw [hD6, hP6, hD7, hP7]
    simp only [h6, h7]
    simp

/-! ## Shape of the log of a `sleep` call -/

theorem cycleLog_entries (w d k : Nat) (p : Int) :
    ∀ x ∈ cycleLog true w d k p,
      x.ev ≠ Event.cli ∧ x.ev ≠ Event.sei ∧ x.ev ≠ Event.sleep_bod_disable ∧
      (x.ev ≠ Event.wdt_disable → x.I = true) := by
  simp [cycleLog]

theorem sleepPrepare_I (e : Exec) : (sleepPrepare e).hw.I = true := by
  rw [sleepPrepare_hw]

theorem sleepPrepare_SE (e : Exec) : (sleepPrepare e).hw.SE = true := by
  rw [sleepPrepare_hw]

theorem sleepPrepare_bod (e : Exec) :
    (sleepPrepare e).self._bodSleepDisable = e.self._bodSleepDisable := by
  rw [sleepPrepare_self]

/-- The log of a `sleep` call is the log of the critical section followed by
the entries of the loop; the loop runs with interrupts enabled, it performs no
`cli`, `sei` or `sleep_bod_disable`, and each of its entries except the handler's
`wdt_disable` is stamped with the interrupt flag set. -/
theorem sleep_log (self : TinySleeper_t) (hw : Hw) (D : Nat) :
    ∃ e' rest, sleep self hw D = some (sleepRestore e') ∧
      e'.log = prepareLog hw.I self._bodSleepDisable ++ rest ∧
      ∀ x ∈ rest, x.ev ≠ Event.cli ∧ x.ev ≠ Event.sei ∧ x.ev ≠ Event.sleep_bod_disable ∧
        (x.ev ≠ Event.wdt_disable → x.I = true) := by
  obtain ⟨e', he', hI, rest, hlog, hrest⟩ := sleep_inv
    (fun e _ => e.hw.I = true ∧ ∃ rest,
      e.log = prepareLog hw.I self._bodSleepDisable ++ rest ∧
      ∀ x ∈ rest, x.ev ≠ Event.cli ∧ x.ev ≠ Event.sei ∧ x.ev ≠ Event.sleep_bod_disable ∧
        (x.ev ≠ Event.wdt_disable → x.I = true))
    self hw D
    ⟨sleepPrepare_I _, [], by rw [sleepPrepare_log]; simp, by simp⟩
    (by
      rintro e d h0 ⟨hI, rest, hlog, hrest⟩
      by_cases h16 : d < 16
      · rw [loopBody_wait e h16]
        refine ⟨hI, rest ++ [⟨.delay d, e.hw.I⟩], ?_, ?_⟩
        · show e.log ++ _ = _
          rw [hlog, List.append_assoc]
        · intro x hx
          rcases List.mem_append.1 hx with h | h
          · exact hrest x h
          · rw [List.mem_singleton] at h
            subst h
            simp [hI]
      · obtain ⟨p, k, _, _, _, heq⟩ := loopBody_cycle e (Nat.le_of_not_lt h16)
        rw [heq]
        refine ⟨hI, rest ++ cycleLog e.hw.I e.hw.WDTCR d k p, ?_, ?_⟩
        · show e.log ++ _ = _
          rw [hlog, List.append_assoc]
        · intro x hx
          rcases List.mem_append.1 hx with h | h
          · exact hrest x h
          · rw [hI] at h
            exact cycleLog_entries _ _ _ _ x h)
  exact ⟨e', rest, he', hlog, hrest⟩

theorem prepareLog_entries (I bod : Bool) :
    ∀ x ∈ prepareLog I bod,
      x.ev ≠ Event.sleep_cpu ∧ (∀ v, x.ev ≠ Event.wdtcrWrite v) ∧
      (x.ev = Event.sleep_bod_disable → x.I = false) := by
  cases bod <;> simp [prepareLog]

theorem bodDisableCount_prepareLog (I bod : Bool) :
    bodDisableCount (prepareLog I bod) = if bod then 1 else 0 := by
  cases bod <;> rfl

theorem bodDisableCount_append (a b : List Entry) :
    bodDisableCount (a ++ b) = bodDisableCount a + bodDisableCount b := by
  simp [bodDisableCount]

theorem bodDisableCount_eq_zero {l : List Entry}
    (h : ∀ x ∈ l, x.ev ≠ Event.sleep_bod_disable) : bodDisableCount l = 0 := by
  unfold bodDisableCount
  rw [List.countP_eq_zero]
  intro x hx
  simpa using h x hx

/-- C12: after `enableBodInSleep(b)`, a `sleep` call performs
`sleep_bod_disable` exactly once when b is true and never when b is false; the
operation lies in the critical section (the log starts with `set_sleep_mode`,
`cli`, `wdt_reset`, `sleep_enable`, the optional `sleep_bod_disable`, `sei`; the
loop that follows performs no `cli`, `sei` or `sleep_bod_disable`) and runs with
interrupts masked; a freshly constructed controller has the policy b = true. -/
theorem C12_bod_disable_once_in_critical_section (self raw : TinySleeper_t) (hw : Hw)
    (D : Nat) (b : Bool) :
    (∃ e rest, sleep (self.enableBodInSleep b) hw D = some e ∧
      bodDisableCount e.log = (if b then 1 else 0) ∧
      e.log = prepareLog hw.I b ++ rest ∧
      (∀ x ∈ rest, x.ev ≠ Event.cli ∧ x.ev ≠ Event.sei ∧ x.ev ≠ Event.sleep_bod_disable) ∧
      (∀ x ∈ e.log, x.ev = Event.sleep_bod_disable → x.I = false)) ∧
    (TinySleeper_t.ctor raw)._bodSleepDisable = true ∧
    TinySleeper_t.ctor raw = (TinySleeper_t.ctor raw).enableBodInSleep true := by
  refine ⟨?_, rfl, rfl⟩
  obtain ⟨e', rest, he', hlog, hrest⟩ := sleep_log (self.enableBodInSleep b) hw D
  have hb : (self.enableBodInSleep b)._bodSleepDisable = b := rfl
  rw [hb] at hlog
  refine ⟨sleepRestore e', rest, he', ?_, by rw [sleepRestore_log, hlog], ?_, ?_⟩
  · rw [sleepRestore_log, hlog, bodDisableCount_append, bodDisableCount_prepareLog,
      bodDisableCount_eq_zero (fun x hx => (hrest x hx).2.2.1)]
    simp
  · intro x hx
    exact ⟨(hrest x hx).1, (hrest x hx).2.1, (hrest x hx).2.2.1⟩
  · intro x hx hev
    rw [sleepRestore_log, hlog] at hx
    rcases List.mem_append.1 hx with h | h
    · exact (prepareLog_entries _ _ x h).2.2 hev
    · exact absurd hev (hrest x h).2.2.1

/-! ## Interrupt flag at the sleep instruction and at the watchdog stores -/

theorem sleepInstrCount_cycleLog (w d k : Nat) (p : Int) :
    sleepInstrCount (cycleLog true w d k p) = 1 := rfl

theorem wdtcrWrites_cycleLog (I : Bool) (w d k : Nat) (p : Int) :
    wdtcrWrites (cycleLog I w d k p) = [u8 (w ||| 24), wdt_prescaler_bits p] := by
  cases I <;> rfl

theorem sleepInstrCount_delay (d : Nat) (I : Bool) : sleepInstrCount [⟨.delay d, I⟩] = 0 := rfl

theorem wdtcrWrites_delay (d : Nat) (I : Bool) : wdtcrWrites [⟨.delay d, I⟩] = [] := rfl

/-- Each wake-source cycle issues the sleep instruction once and stores to the
watchdog control register twice. -/
theorem sleep_counts (self : TinySleeper_t) (hw : Hw) (D : Nat) :
    ∃ e', sleep self hw D = some (sleepRestore e') ∧
      sleepInstrCount e'.log = (cycles e'.log).length ∧
      (wdtcrWrites e'.log).length = 2 * (cycles e'.log).length := by
  obtain ⟨e', he', _, h1, h2⟩ := sleep_inv
    (fun e _ => e.hw.I = true ∧ sleepInstrCount e.log = (cycles e.log).length ∧
      (wdtcrWrites e.log).length = 2 * (cycles e.log).length)
    self hw D
    ⟨sleepPrepare_I _,
      by rw [sleepPrepare_log]
         simp [sleepInstrCount_append, sleepInstrCount_prepareLog, cycles_append,
           cycles_prepareLog],
      by rw [sleepPrepare_log]
         simp [wdtcrWrites_append, wdtcrWrites_prepareLog, cycles_append,
           cycles_prepareLog]⟩
    (by
      rintro e d h0 ⟨hI, h1, h2⟩
      by_cases h16 : d < 16
      · rw [loopBody_wait e h16]
        refine ⟨hI, ?_, ?_⟩
        · show sleepInstrCount (e.log ++ _) = (cycles (e.log ++ _)).length
          rw [sleepInstrCount_append, cycles_append, sleepInstrCount_delay, cycles_delay, h1]
          simp
        · show (wdtcrWrites (e.log ++ _)).length = 2 * (cycles (e.log ++ _)).length
          rw [wdtcrWrites_append, cycles_append, wdtcrWrites_delay, cycles_delay]
          simpa using h2
      · obtain ⟨p, k, _, _, _, heq⟩ := loopBody_cycle e (Nat.le_of_not_lt h16)
        rw [heq]
        refine ⟨hI, ?_, ?_⟩
        · show sleepInstrCount (e.log ++ _) = (cycles (e.log ++ _)).length
          rw [sleepInstrCount_append, cycles_append, cycles_cycleLog, hI,
            sleepInstrCount_cycleLog, h1]
          simp
        · show (wdtcrWrites (e.log ++ _)).length = 2 * (cycles (e.log ++ _)).length
          rw [wdtcrWrites_append, cycles_append, cycles_cycleLog, wdtcrWrites_cycleLog]
          simp only [List.length_append, List.length_cons, List.length_nil]
          omega)
  exact ⟨e', he', h1, h2⟩

/-- C13: at every point of `sleep(D)` where the sleep instruction is issued the
global interrupt flag is set; the instruction is issued once per wake-source
cycle. -/
theorem C13_interrupts_enabled_at_sleep_instruction (self : TinySleeper_t) (hw : Hw)
    (D : Nat) :
    ∃ e, sleep self hw D = some e ∧
      (∀ x ∈ e.log, x.ev = Event.sleep_cpu → x.I = true) ∧
      sleepInstrCount e.log = (cycles e.log).length := by
  obtain ⟨e', rest, he', hlog, hrest⟩ := sleep_log self hw D
  obtain ⟨e2, he2, hcnt, _⟩ := sleep_counts self hw D
  have hsame : sleepRestore e2 = sleepRestore e' := by
    have := he2.symm.trans he'
    exact Option.some.inj this
  refine ⟨sleepRestore e', he', ?_, ?_⟩
  · intro x hx hev
    rw [sleepRestore_log, hlog] at hx
    rcases List.mem_append.1 hx with h | h
    · exact absurd hev (prepareLog_entries _ _ x h).1
    · exact (hrest x h).2.2.2 (by rw [hev]; simp)
  · rw [← hsame, sleepRestore_log]
    exact hcnt

/-- C14 (as stated) fails: `sleep(16)` stores 24 and then 64 to the watchdog
control register, both with the global interrupt flag set. -/
theorem C14_counterexample :
    (sleep TinySleeper hwRunning 16).map
      (fun e => e.log.filterMap fun x =>
        match x.ev with
        | .wdtcrWrite v => some (v, x.I)
        | _ => none)
      = some [(24, true), (64, true)] := by
  decide

/-- Below 16 ms `sleep` stores nothing to the watchdog control register. -/
theorem sleep_no_store_below_16 (self : TinySleeper_t) (hw : Hw) {D : Nat} (hD : D < 16) :
    ∃ e', sleep self hw D = some (sleepRestore e') ∧ wdtcrWrites e'.log = [] := by
  by_cases h0 : D = 0
  · subst h0
    refine ⟨_, sleep_zero self hw, ?_⟩
    rw [sleepPrepare_log]
    simp [wdtcrWrites_append, wdtcrWrites_prepareLog]
  · refine ⟨_, sleep_short self hw (by omega) (by omega), ?_⟩
    show wdtcrWrites ((sleepPrepare ⟨self, hw, []⟩).log ++ _) = []
    rw [sleepPrepare_log, wdtcrWrites_append, wdtcrWrites_delay]
    simp [wdtcrWrites_append, wdtcrWrites_prepareLog]

theorem prepareLog_getLast (I bod : Bool) :
    (prepareLog I bod).getLast? = some ⟨.sei, false⟩ := by
  cases bod <;> rfl

/-- C14 (as amended): every store `sleep(D)` makes to the watchdog control
register (both stores of each unlock-then-configure sequence of
`setupWdtForWakeup`) happens after the critical section has ended: the log is
the critical section, which ends with `sei` and contains no store, followed by
the loop entries, which contain no `cli` or `sei`, and every store is one of the
loop entries; each store is made with the global interrupt flag set; there are
exactly two stores per wake-source cycle and none when D < 16. -/
theorem C14_watchdog_stores_with_interrupts_enabled (self : TinySleeper_t) (hw : Hw)
    (D : Nat) :
    ∃ e rest, sleep self hw D = some e ∧
      e.log = prepareLog hw.I self._bodSleepDisable ++ rest ∧
      (prepareLog hw.I self._bodSleepDisable).getLast? = some ⟨.sei, false⟩ ∧
      wdtcrWrites (prepareLog hw.I self._bodSleepDisable) = [] ∧
      (∀ x ∈ rest, x.ev ≠ Event.cli ∧ x.ev ≠ Event.sei) ∧
      (∀ x ∈ e.log, ∀ v, x.ev = Event.wdtcrWrite v → x ∈ rest ∧ x.I = true) ∧
      (wdtcrWrites e.log).length = 2 * (cycles e.log).length ∧
      (D < 16 → wdtcrWrites e.log = []) := by
  obtain ⟨e', rest, he', hlog, hrest⟩ := sleep_log self hw D
  obtain ⟨e2, he2, _, hcnt⟩ := sleep_counts self hw D
  have hsame : sleepRestore e2 = sleepRestore e' := by
    have := he2.symm.trans he'
    exact Option.some.inj this
  refine ⟨sleepRestore e', rest, he', by rw [sleepRestore_log, hlog],
    prepareLog_getLast _ _, wdtcrWrites_prepareLog _ _, ?_, ?_, ?_, ?_⟩
  · intro x hx
    exact ⟨(hrest x hx).1, (hrest x hx).2.1⟩
  · intro x hx v hev
    rw [sleepRestore_log, hlog] at hx
    rcases List.mem_append.1 hx with h | h
    · exact absurd hev ((prepareLog_entries _ _ x h).2.1 v)
    · exact ⟨h, (hrest x h).2.2.2 (by rw [hev]; simp)⟩
  · rw [← hsame, sleepRestore_log]
    exact hcnt
  · intro hD
    obtain ⟨e3, he3, hw3⟩ := sleep_no_store_below_16 self hw hD
    have hsame3 : sleepRestore e3 = sleepRestore e' := by
      have := he3.symm.trans he'
      exact Option.some.inj this
    rw [← hsame3, sleepRestore_log]
    exact hw3

/-- C14 (as amended), applied: `sleep(10)` makes no store to the watchdog
control register. -/
theorem C14_watchdog_stores_with_interrupts_enabled_witness :
    10 < 16 ∧ ∃ e, sleep TinySleeper hwRunning 10 = some e ∧ wdtcrWrites e.log = [] :=
  ⟨by decide,
    (C14_watchdog_stores_with_interrupts_enabled TinySleeper hwRunning 10).elim
      fun e h => h.elim fun _ h => ⟨e, h.1, h.2.2.2.2.2.2.2 (by decide)⟩⟩

/-! ## The sleep-enable flag at return -/

theorem sleepRestore_SE (e : Exec) : (sleepRestore e).hw.SE = e.hw.SE := by
  simp only [sleepRestore, restoreSystemStates, power_adc_enable, power_timer1_enable,
    power_analog_comp_enable, restorePinStates]
  split_ifs <;> rfl

/-- C20: with `sleep_enable` setting the sleep-enable flag, `sleep_disable`
clearing it and `sleep_mode` being set, sleep, clear: when `sleep(D)` returns the
flag is clear if and only if D >= 16; for every D < 16, 0 included, it is still
set as the critical section left it. -/
theorem C20_sleep_enable_flag_at_return (self : TinySleeper_t) (hw : Hw) (D : Nat) :
    ∃ e, sleep self hw D = some e ∧ (e.hw.SE = false ↔ 16 ≤ D) ∧
      (D < 16 → e.hw.SE = true) := by
  obtain ⟨e', he', hP⟩ := sleep_inv
    (fun e d => d ≤ D ∧
      ((e.hw.SE = true ∧ (d = D ∨ D < 16)) ∨ (e.hw.SE = false ∧ 16 ≤ D)))
    self hw D
    ⟨Nat.le_refl D, Or.inl ⟨sleepPrepare_SE _, Or.inl rfl⟩⟩
    (by
      rintro e d h0 ⟨hle, hcase⟩
      have hlt := loopBody_snd_lt e h0
      refine ⟨by omega, ?_⟩
      by_cases h16 : d < 16
      · rw [loopBody_wait e h16]
        rcases hcase with ⟨hSE, hd⟩ | ⟨hSE, hD⟩
        · exact Or.inl ⟨hSE, Or.inr (by omega)⟩
        · exact Or.inr ⟨hSE, hD⟩
      · obtain ⟨p, k, _, _, _, heq⟩ := loopBody_cycle e (Nat.le_of_not_lt h16)
        rw [heq]
        exact Or.inr ⟨rfl, by omega⟩)
  refine ⟨sleepRestore e', he', ?_, ?_⟩
  · rw [sleepRestore_SE]
    rcases hP.2 with ⟨hSE, hd⟩ | ⟨hSE, hD⟩
    · rw [hSE]
      constructor
      · intro h; exact absurd h (by decide)
      · intro h; omega
    · rw [hSE]
      exact ⟨fun _ => hD, fun _ => rfl⟩
  · intro hD
    rw [sleepRestore_SE]
    rcases hP.2 with ⟨hSE, _⟩ | ⟨_, h16⟩
    · exact hSE
    · omega

/-! ## Prescaler encoding -/

theorem setupWdtForWakeup_WDTCR (e : Exec) (p : Int) :
    (setupWdtForWakeup e p).hw.WDTCR = wdt_prescaler_bits p := by
  rw [setupWdtForWakeup_eq]

/-- C15: the loop pairs the ten menu intervals with the prescaler indices
16->0, 32->1, 64->2, 128->3, 250->4, 500->5, 1000->6, 2000->7, 4000->8, 8000->9,
and for each pair the byte `setupWdtForWakeup` leaves in the watchdog control
register has WDIE set, WDE and WDCE clear and WDP3:WDP0 equal to the index in
binary; the ten bytes are pairwise distinct. -/
theorem C15_prescaler_encoding (e : Exec) :
    branchTable.map Prod.snd = menu ∧
    (∀ pk ∈ branchTable,
      selectPrescaler pk.2 = ⟨pk.1, 0, pk.2⟩ ∧
      (setupWdtForWakeup e pk.1).hw.WDTCR < 256 ∧
      (setupWdtForWakeup e pk.1).hw.WDTCR.testBit WDIE = true ∧
      (setupWdtForWakeup e pk.1).hw.WDTCR.testBit WDE = false ∧
      (setupWdtForWakeup e pk.1).hw.WDTCR.testBit WDCE = false ∧
      (setupWdtForWakeup e pk.1).hw.WDTCR.testBit 7 = false ∧
      ((if (setupWdtForWakeup e pk.1).hw.WDTCR.testBit WDP3 then 8 else 0) +
        (setupWdtForWakeup e pk.1).hw.WDTCR % 8 : Nat) = pk.1.toNat) ∧
    (branchTable.map fun pk => (setupWdtForWakeup e pk.1).hw.WDTCR).Nodup := by
  have key : ∀ pk ∈ branchTable,
      selectPrescaler pk.2 = ⟨pk.1, 0, pk.2⟩ ∧
      wdt_prescaler_bits pk.1 < 256 ∧
      (wdt_prescaler_bits pk.1).testBit WDIE = true ∧
      (wdt_prescaler_bits pk.1).testBit WDE = false ∧
      (wdt_prescaler_bits pk.1).testBit WDCE = false ∧
      (wdt_prescaler_bits pk.1).testBit 7 = false ∧
      ((if (wdt_prescaler_bits pk.1).testBit WDP3 then 8 else 0) +
        wdt_prescaler_bits pk.1 % 8 : Nat) = pk.1.toNat := by
    decide
  have hnodup : (branchTable.map fun pk => wdt_prescaler_bits pk.1).Nodup := by decide
  refine ⟨rfl, ?_, ?_⟩
  · intro pk hpk
    simp only [setupWdtForWakeup_WDTCR]
    exact key pk hpk
  · simp only [setupWdtForWakeup_WDTCR]
    exact hnodup

/-! ## The bounded wait ends the loop -/

/-- A bounded wait, if any, is the single last operation of the `sleep` call,
of 1 to 15 ms. -/
theorem sleep_wait_last (self : TinySleeper_t) (hw : Hw) (D : Nat) :
    ∃ e', sleep self hw D = some (sleepRestore e') ∧
      (waits e'.log = [] ∨
        ∃ r I, 1 ≤ r ∧ r ≤ 15 ∧ waits e'.log = [r] ∧
          e'.log.getLast? = some ⟨.delay r, I⟩) := by
  obtain ⟨e', he', hw'⟩ := sleep_inv
    (fun e d => waits e.log = [] ∨
      (d = 0 ∧ ∃ r I, 1 ≤ r ∧ r ≤ 15 ∧ waits e.log = [r] ∧
        e.log.getLast? = some ⟨.delay r, I⟩))
    self hw D
    (Or.inl (by rw [sleepPrepare_log]; simp [waits_append, waits_prepareLog]))
    (by
      rintro e d h0 hwt
      have hw0 : waits e.log = [] := by
        rcases hwt with h | ⟨h, _⟩
        · exact h
        · omega
      by_cases h16 : d < 16
      · rw [loopBody_wait e h16]
        refine Or.inr ⟨rfl, d, e.hw.I, h0, by omega, ?_, ?_⟩
        · show waits (e.log ++ _) = _
          rw [waits_append, waits_delay, hw0]
          rfl
        · show (e.log ++ _).getLast? = _
          rw [List.getLast?_concat]
      · obtain ⟨p, k, _, _, _, heq⟩ := loopBody_cycle e (Nat.le_of_not_lt h16)
        rw [heq]
        left
        show waits (e.log ++ _) = _
        rw [waits_append, waits_cycleLog, hw0]
        rfl)
  refine ⟨e', he', ?_⟩
  rcases hw' with h | ⟨_, h⟩
  · exact Or.inl h
  · exact Or.inr h

/-- C17: for every 32-bit duration D, `sleep(D)` performs at most one bounded
wait; the wait, if any, is the last operation of the loop and its length r
satisfies 1 <= r <= 15; the wake-source cycle lengths plus the bounded-wait length
(0 if none) sum to exactly D. -/
theorem C17_whole_duration_accounted (self : TinySleeper_t) (hw : Hw) (D : Nat)
    (hD : D < 4294967296) :
    ∃ e, sleep self hw D = some e ∧ (waits e.log).length ≤ 1 ∧
      (∀ r ∈ waits e.log, 1 ≤ r ∧ r ≤ 15 ∧ ∃ I, e.log.getLast? = some ⟨.delay r, I⟩) ∧
      (cycles e.log).sum + (waits e.log).sum = D := by
  obtain ⟨e', he', hsum, _⟩ := sleep_account self hw D hD
  obtain ⟨e2, he2, hlast⟩ := sleep_wait_last self hw D
  have hsame : sleepRestore e2 = sleepRestore e' := Option.some.inj (he2.symm.trans he')
  have hlog : e2.log = e'.log := by
    have := congrArg Exec.log hsame
    simpa using this
  rw [hlog] at hlast
  refine ⟨sleepRestore e', he', ?_, ?_, by simpa using hsum⟩
  · rw [sleepRestore_log]
    rcases hlast with h | ⟨r, I, _, _, h, _⟩
    · simp [h]
    · simp [h]
  · intro r hr
    rw [sleepRestore_log] at hr ⊢
    rcases hlast with h | ⟨r', I, h1, h15, h, hl⟩
    · rw [h] at hr
      exact absurd hr (List.not_mem_nil r)
    · rw [h, List.mem_singleton] at hr
      subst hr
      exact ⟨h1, h15, I, hl⟩

/-- C17, applied: `sleep(8517)` ends with a bounded wait of 1 ms. -/
theorem C17_whole_duration_accounted_witness :
    8517 < 4294967296 ∧
    (sleep TinySleeper hwRunning 8517).map (fun e => (cycles e.log, waits e.log)) =
      some ([8000, 500, 16], [1]) ∧
    ∃ e, sleep TinySleeper hwRunning 8517 = some e ∧ (waits e.log).length ≤ 1 ∧
      (∀ r ∈ waits e.log, 1 ≤ r ∧ r ≤ 15 ∧ ∃ I, e.log.getLast? = some ⟨.delay r, I⟩) ∧
      (cycles e.log).sum + (waits e.log).sum = 8517 :=
  ⟨by decide, by decide,
    C17_whole_duration_accounted TinySleeper hwRunning 8517 (by decide)⟩

/-! ## Shape of the decomposition -/

/-- A cycle chosen with less than 8000 ms left is a lower menu interval and
leaves less than its own length. -/
theorem cycle_below_8000 {d k : Nat} (hk : k ∈ menu) (hkd : k ≤ d)
    (hbig : ∀ m ∈ menu, m ≤ d → m ≤ k) (hd : d < 8000) :
    k ∈ lowerMenu ∧ d - k < k := by
  have b1 := hbig 4000 (by simp [menu])
  have b2 := hbig 2000 (by simp [menu])
  have b3 := hbig 1000 (by simp [menu])
  have b4 := hbig 500 (by simp [menu])
  have b5 := hbig 250 (by simp [menu])
  have b6 := hbig 128 (by simp [menu])
  have b7 := hbig 64 (by simp [menu])
  have b8 := hbig 32 (by simp [menu])
  simp only [menu, List.mem_cons, List.mem_singleton, List.not_mem_nil, or_false] at hk
  rcases hk with rfl | rfl | rfl | rfl | rfl | rfl | rfl | rfl | rfl | rfl
  · omega
  all_goals exact ⟨by simp [lowerMenu], by omega⟩

/-- A cycle chosen with at least 8000 ms left is the 8000 ms cycle. -/
theorem cycle_at_least_8000 {d k : Nat} (hk : k ∈ menu) (hbig : ∀ m ∈ menu, m ≤ d → m ≤ k)
    (hd : 8000 ≤ d) : k = 8000 := by
  have b0 := hbig 8000 (by simp [menu]) hd
  simp only [menu, List.mem_cons, List.mem_singleton, List.not_mem_nil, or_false] at hk
  omega

theorem lowerMenu_le {x : Nat} (hx : x ∈ lowerMenu) : 16 ≤ x ∧ x ≤ 4000 := by
  simp only [lowerMenu, List.mem_cons, List.mem_singleton, List.not_mem_nil, or_false] at hx
  omega

/-- A strictly decreasing list of lower menu intervals has at most nine
elements. -/
theorem length_le_nine {t : List Nat} (hs : t.Pairwise (· > ·))
    (hm : ∀ x ∈ t, x ∈ lowerMenu) : t.length ≤ 9 := by
  have hnd : t.Nodup := hs.imp (fun h => Nat.ne_of_gt h)
  have hsub : t ⊆ lowerMenu := fun x hx => hm x hx
  exact (hnd.subperm hsub).length_le

/-- Closed shape of the cycle sequence of `sleep(D)`. -/
theorem sleep_shape (self : TinySleeper_t) (hw : Hw) (D : Nat) (hD : D < 4294967296) :
    ∃ e' t, sleep self hw D = some (sleepRestore e') ∧
      cycles e'.log = List.replicate (D / 8000) 8000 ++ t ∧
      t.Pairwise (· > ·) ∧ ∀ x ∈ t, x ∈ lowerMenu := by
  obtain ⟨e', he', _, n, t, hn, hc, hs, hm⟩ := sleep_inv
    (fun e d => d < 4294967296 ∧ ∃ n t, n + d / 8000 = D / 8000 ∧
      cycles e.log = List.replicate n 8000 ++ t ∧ t.Pairwise (· > ·) ∧
      ∀ x ∈ t, x ∈ lowerMenu ∧ d < x)
    self hw D
    ⟨hD, 0, [], by omega,
      by rw [sleepPrepare_log]; simp [cycles_append, cycles_prepareLog],
      List.Pairwise.nil, by simp⟩
    (by
      rintro e d h0 ⟨hd, n, t, hn, hc, hs, hm⟩
      by_cases h16 : d < 16
      · rw [loopBody_wait e h16]
        refine ⟨by omega, n, t, by omega, ?_, hs, ?_⟩
        · show cycles (e.log ++ _) = _
          rw [cycles_append, cycles_delay, hc]
          simp
        · intro x hx
          exact ⟨(hm x hx).1, by have := lowerMenu_le (hm x hx).1; omega⟩
      · obtain ⟨p, k, hpk, hkd, hbig, heq⟩ := loopBody_cycle e (Nat.le_of_not_lt h16)
        rw [heq]
        have hk := (branchTable_mem hpk).2.2.2.2.2
        have hsub := sub32_of_le hkd hd
        simp only [hsub]
        by_cases h8 : 8000 ≤ d
        · have hk8 := cycle_at_least_8000 hk hbig h8
          subst hk8
          have ht : t = [] := by
            cases t with
            | nil => rfl
            | cons x xs =>
              have hx := hm x (List.mem_cons_self x xs)
              have := lowerMenu_le hx.1
              omega
          subst ht
          refine ⟨by omega, n + 1, [], by omega, ?_, List.Pairwise.nil, by simp⟩
          show cycles (e.log ++ _) = _
          rw [cycles_append, cycles_cycleLog, hc, List.append_nil, List.append_nil,
            List.replicate_succ']
        · obtain ⟨hkl, hrem⟩ := cycle_below_8000 hk hkd hbig (by omega)
          refine ⟨by omega, n, t ++ [k], by omega, ?_, ?_, ?_⟩
          · show cycles (e.log ++ _) = _
            rw [cycles_append, cycles_cycleLog, hc, List.append_assoc]
          · rw [List.pairwise_append]
            refine ⟨hs, List.pairwise_singleton _ _, ?_⟩
            intro a ha b hb
            rw [List.mem_singleton] at hb
            subst hb
            have := (hm a ha).2
            omega
          · intro x hx
            rcases List.mem_append.1 hx with h | h
            · exact ⟨(hm x h).1, by have := (hm x h).2; omega⟩
            · rw [List.mem_singleton] at h
              subst h
              exact ⟨hkl, hrem⟩)
  have hn0 : n = D / 8000 := by omega
  subst hn0
  exact ⟨e', t, he', hc, hs, fun x hx => (hm x hx).1⟩

/-- C18: for every 32-bit duration D, the sequence of wake-source cycle lengths
of `sleep(D)` is floor(D / 8000) cycles of 8000 followed by a strictly decreasing
sequence of intervals from 4000, 2000, 1000, 500, 250, 128, 64, 32, 16 (each at
most once), so there are at most floor(D / 8000) + 9 cycles. -/
theorem C18_decomposition_shape (self : TinySleeper_t) (hw : Hw) (D : Nat)
    (hD : D < 4294967296) :
    ∃ e t, sleep self hw D = some e ∧
      cycles e.log = List.replicate (D / 8000) 8000 ++ t ∧
      t.Pairwise (· > ·) ∧ (∀ x ∈ t, x ∈ lowerMenu) ∧
      (cycles e.log).length ≤ D / 8000 + 9 := by
  obtain ⟨e', t, he', hc, hs, hm⟩ := sleep_shape self hw D hD
  refine ⟨sleepRestore e', t, he', by rw [sleepRestore_log]; exact hc, hs, hm, ?_⟩
  rw [sleepRestore_log, hc, List.length_append, List.length_replicate]
  have := length_le_nine hs hm
  omega

/-- C18, applied: `sleep(24517)` runs 8000, 8000, 8000, 500, 16. -/
theorem C18_decomposition_shape_witness :
    24517 < 4294967296 ∧
    (sleep TinySleeper hwRunning 24517).map (fun e => cycles e.log) =
      some [8000, 8000, 8000, 500, 16] ∧
    ∃ e t, sleep TinySleeper hwRunning 24517 = some e ∧
      cycles e.log = List.replicate (24517 / 8000) 8000 ++ t ∧
      t.Pairwise (· > ·) ∧ (∀ x ∈ t, x ∈ lowerMenu) ∧
      (cycles e.log).length ≤ 24517 / 8000 + 9 :=
  ⟨by decide, by decide, C18_decomposition_shape TinySleeper hwRunning 24517 (by decide)⟩

/-! ## Minimality of the greedy decomposition -/

theorem ones5_table :
    ∀ a < 32, ∀ m ∈ [1, 2, 4, 8, 16],
      (a + m < 32 → ones5 (a + m) ≤ ones5 a + 1) ∧
      (32 ≤ a + m → ones5 (a + m - 32) ≤ ones5 a) := by
  decide

theorem ones5_rest_table :
    ∀ u < 250, ∀ c ∈ [16, 32, 64, 128],
      (u + c < 250 → ones5 ((u + c) / 16) ≤ ones5 (u / 16) + 1) ∧
      (250 ≤ u + c → ones5 ((u + c - 250) / 16) ≤ ones5 (u / 16)) := by
  decide!

/-- Below 8000 ms, adding a multiple-of-250 menu interval changes the closed
form by at most one cycle, a carry past 8000 counting as the cycle. -/
theorem closed_add_unit {r m : Nat} (hr : r < 8000) (hm : m ∈ [1, 2, 4, 8, 16]) :
    (r + 250 * m < 8000 → cycleCountClosed (r + 250 * m) ≤ cycleCountClosed r + 1) ∧
    (8000 ≤ r + 250 * m → cycleCountClosed (r + 250 * m - 8000) ≤ cycleCountClosed r) := by
  have ha : r / 250 < 32 := by omega
  obtain ⟨t1, t2⟩ := ones5_table (r / 250) ha m hm
  have hm16 : m ≤ 16 := by
    simp only [List.mem_cons, List.mem_singleton, List.not_mem_nil, or_false] at hm
    omega
  constructor
  · intro h
    have h1 : (r + 250 * m) / 250 = r / 250 + m := by omega
    have h2 : (r + 250 * m) % 250 = r % 250 := by omega
    unfold cycleCountClosed
    rw [h1, h2]
    have := t1 (by omega)
    omega
  · intro h
    have h1 : (r + 250 * m - 8000) / 250 = r / 250 + m - 32 := by omega
    have h2 : (r + 250 * m - 8000) % 250 = r % 250 := by omega
    unfold cycleCountClosed
    rw [h1, h2]
    have := t2 (by omega)
    omega

/-- Below 8000 ms, adding one of the intervals 16, 32, 64, 128 changes the
closed form by at most one cycle, a carry past 8000 counting as the cycle. -/
theorem closed_add_small {r c : Nat} (hr : r < 8000) (hc : c ∈ [16, 32, 64, 128]) :
    (r + c < 8000 → cycleCountClosed (r + c) ≤ cycleCountClosed r + 1) ∧
    (8000 ≤ r + c → cycleCountClosed (r + c - 8000) ≤ cycleCountClosed r) := by
  have ha : r / 250 < 32 := by omega
  have hu : r % 250 < 250 := Nat.mod_lt _ (by decide)
  obtain ⟨s1, s2⟩ := ones5_rest_table (r % 250) hu c hc
  obtain ⟨t1, _⟩ := ones5_table (r / 250) ha 1 (by simp)
  have hc128 : c ≤ 128 := by
    simp only [List.mem_cons, List.mem_singleton, List.not_mem_nil, or_false] at hc
    omega
  have hz : ones5 0 = 0 := by decide
  constructor
  · intro h
    by_cases hcarry : r % 250 + c < 250
    · have h1 : (r + c) / 250 = r / 250 := by omega
      have h2 : (r + c) % 250 = r % 250 + c := by omega
      unfold cycleCountClosed
      rw [h1, h2]
      have := s1 hcarry
      omega
    · have h1 : (r + c) / 250 = r / 250 + 1 := by omega
      have h2 : (r + c) % 250 = r % 250 + c - 250 := by omega
      unfold cycleCountClosed
      rw [h1, h2]
      have := s2 (by omega)
      have := t1 (by omega)
      omega
  · intro h
    have h1 : (r + c - 8000) / 250 = 0 := by omega
    have h2 : (r + c - 8000) % 250 = r % 250 + c - 250 := by omega
    unfold cycleCountClosed
    rw [h1, h2, hz]
    have := s2 (by omega)
    omega

/-- Below 8000 ms, adding a lower menu interval changes the closed form by at
most one cycle, a carry past 8000 counting as the cycle. -/
theorem closed_add_lower {r c : Nat} (hr : r < 8000) (hc : c ∈ lowerMenu) :
    (r + c < 8000 → cycleCountClosed (r + c) ≤ cycleCountClosed r + 1) ∧
    (8000 ≤ r + c → cycleCountClosed (r + c - 8000) ≤ cycleCountClosed r) := by
  simp only [lowerMenu, List.mem_cons, List.mem_singleton, List.not_mem_nil, or_false] at hc
  rcases hc with rfl | rfl | rfl | rfl | rfl | rfl | rfl | rfl | rfl
  · exact @closed_add_unit r 16 hr (by simp)
  · exact @closed_add_unit r 8 hr (by simp)
  · exact @closed_add_unit r 4 hr (by simp)
  · exact @closed_add_unit r 2 hr (by simp)
  · exact @closed_add_unit r 1 hr (by simp)
  · exact closed_add_small hr (by simp)
  · exact closed_add_small hr (by simp)
  · exact closed_add_small hr (by simp)
  · exact closed_add_small hr (by simp)

theorem cycleCount_succ_lt {d : Nat} (fuel : Nat) (h : d < 16) :
    cycleCount (fuel + 1) d = 0 := by
  simp [cycleCount, selectPrescaler_none h]

/-- One unfolding of the cycle count at a duration of at least 16 ms. -/
theorem cycleCount_succ_ge {d : Nat} (fuel : Nat) (h : 16 ≤ d) (hd : d < 4294967296) :
    ∃ k, k ∈ menu ∧ k ≤ d ∧ (∀ m ∈ menu, m ≤ d → m ≤ k) ∧
      cycleCount (fuel + 1) d = 1 + cycleCount fuel (d - k) := by
  obtain ⟨p, k, hpk, hkd, hbig, hsel⟩ := selectPrescaler_some h
  have hp := (branchTable_mem hpk).1
  refine ⟨k, (branchTable_mem hpk).2.2.2.2.2, hkd, hbig, ?_⟩
  simp [cycleCount, hsel, hp, sub32_of_le hkd hd]

/-- The cycle count does not depend on the fuel once the fuel exceeds the
duration. -/
theorem cycleCount_fuel :
    ∀ (f f' d : Nat), d < f → d < f' → d < 4294967296 →
      cycleCount f d = cycleCount f' d := by
  intro f
  induction f with
  | zero => intro f' d h; omega
  | succ n ih =>
    intro f' d h h' hd
    obtain ⟨n', rfl⟩ : ∃ n', f' = n' + 1 := ⟨f' - 1, by omega⟩
    by_cases h16 : d < 16
    · rw [cycleCount_succ_lt n h16, cycleCount_succ_lt n' h16]
    · obtain ⟨k, hk, hkd, hbig, h1⟩ := cycleCount_succ_ge n (Nat.le_of_not_lt h16) hd
      obtain ⟨k', hk', hkd', hbig', h2⟩ := cycleCount_succ_ge n' (Nat.le_of_not_lt h16) hd
      have hkk : k = k' := Nat.le_antisymm (hbig' k hk hkd) (hbig k' hk' hkd')
      subst hkk
      have hk16 : 16 ≤ k := by
        simp only [menu, List.mem_cons, List.mem_singleton, List.not_mem_nil, or_false] at hk
        omega
      rw [h1, h2, ih n' (d - k) (by omega) (by omega) (by omega)]

theorem closed_lt {d : Nat} (h : d < 16) : cycleCountClosed d = 0 := by
  have h1 : d / 250 = 0 := by omega
  have h2 : d % 250 / 16 = 0 := by omega
  unfold cycleCountClosed
  rw [h1, h2]
  decide

theorem ones5_top_table :
    ∀ a < 32, ∀ m ∈ [1, 2, 4, 8, 16], m ≤ a → a < 2 * m → ones5 a = 1 + ones5 (a - m) := by
  decide

theorem closed_step_unit {d m : Nat} (hm : m ∈ [1, 2, 4, 8, 16]) (h1 : 250 * m ≤ d)
    (h2 : d < 500 * m) : cycleCountClosed d = 1 + cycleCountClosed (d - 250 * m) := by
  have hm16 : m ≤ 16 := by
    simp only [List.mem_cons, List.mem_singleton, List.not_mem_nil, or_false] at hm
    omega
  have e1 : (d - 250 * m) / 250 = d / 250 - m := by omega
  have e2 : (d - 250 * m) % 250 = d % 250 := by omega
  have := ones5_top_table (d / 250) (by omega) m hm (by omega) (by omega)
  unfold cycleCountClosed
  rw [e1, e2, this]
  omega

theorem closed_step_small {d m : Nat} (hm : m ∈ [1, 2, 4, 8, 16]) (h1 : 16 * m ≤ d)
    (h2 : d < 32 * m) (h3 : d < 250) :
    cycleCountClosed d = 1 + cycleCountClosed (d - 16 * m) := by
  have e0 : d / 250 = 0 := by omega
  have e1 : (d - 16 * m) / 250 = 0 := by omega
  have e2 : (d - 16 * m) % 250 / 16 = d % 250 / 16 - m := by omega
  have := ones5_top_table (d % 250 / 16) (by omega) m hm (by omega) (by omega)
  unfold cycleCountClosed
  rw [e0, e1, e2, this]
  omega

/-- The closed form follows the loop: taking the largest interval that fits
lowers it by one. -/
theorem closed_step {d k : Nat} (hk : k ∈ menu) (hkd : k ≤ d)
    (hbig : ∀ m ∈ menu, m ≤ d → m ≤ k) (hd : d < 8000) :
    cycleCountClosed d = 1 + cycleCountClosed (d - k) := by
  have b1 := hbig 4000 (by simp [menu])
  have b2 := hbig 2000 (by simp [menu])
  have b3 := hbig 1000 (by simp [menu])
  have b4 := hbig 500 (by simp [menu])
  have b5 := hbig 250 (by simp [menu])
  have b6 := hbig 128 (by simp [menu])
  have b7 := hbig 64 (by simp [menu])
  have b8 := hbig 32 (by simp [menu])
  simp only [menu, List.mem_cons, List.mem_singleton, List.not_mem_nil, or_false] at hk
  rcases hk with rfl | rfl | rfl | rfl | rfl | rfl | rfl | rfl | rfl | rfl
  · omega
  · exact @closed_step_unit d 16 (by simp) (by omega) (by omega)
  · exact @closed_step_unit d 8 (by simp) (by omega) (by omega)
  · exact @closed_step_unit d 4 (by simp) (by omega) (by omega)
  · exact @closed_step_unit d 2 (by simp) (by omega) (by omega)
  · exact @closed_step_unit d 1 (by simp) (by omega) (by omega)
  · exact @closed_step_small d 8 (by simp) (by omega) (by omega) (by omega)
  · exact @closed_step_small d 4 (by simp) (by omega) (by omega) (by omega)
  · exact @closed_step_small d 2 (by simp) (by omega) (by omega) (by omega)
  · exact @closed_step_small d 1 (by simp) (by omega) (by omega) (by omega)

/-- Below 8000 ms the loop performs as many cycles as the closed form says. -/
theorem cycleCount_eq_closed :
    ∀ (n d : Nat), d < n → d < 8000 → cycleCount (d + 1) d = cycleCountClosed d := by
  intro n
  induction n with
  | zero => intro d h; omega
  | succ n ih =>
    intro d hn hd
    by_cases h16 : d < 16
    · rw [cycleCount_succ_lt d h16, closed_lt h16]
    · obtain ⟨k, hk, hkd, hbig, h1⟩ :=
        cycleCount_succ_ge d (Nat.le_of_not_lt h16) (by omega)
      have hk16 : 16 ≤ k := by
        simp only [menu, List.mem_cons, List.mem_singleton, List.not_mem_nil, or_false] at hk
        omega
      rw [h1, closed_step hk hkd hbig hd,
        cycleCount_fuel d (d - k + 1) (d - k) (by omega) (by omega) (by omega),
        ih (d - k) (by omega) (by omega)]

/-- The cycle count splits into the 8000 ms cycles and the closed form of the
rest. -/
theorem cycleCount_split (q : Nat) :
    ∀ r : Nat, r < 8000 → 8000 * q + r < 4294967296 →
      cycleCount (8000 * q + r + 1) (8000 * q + r) = q + cycleCountClosed r := by
  induction q with
  | zero =>
    intro r hr _
    have := cycleCount_eq_closed (r + 1) r (by omega) hr
    simpa using this
  | succ q ih =>
    intro r hr h32
    obtain ⟨k, hk, hkd, hbig, h1⟩ :=
      cycleCount_succ_ge (8000 * (q + 1) + r) (d := 8000 * (q + 1) + r) (by omega) h32
    have hk8 : k = 8000 := cycle_at_least_8000 hk hbig (by omega)
    subst hk8
    have e : 8000 * (q + 1) + r - 8000 = 8000 * q + r := by omega
    rw [h1, e, cycleCount_fuel (8000 * (q + 1) + r) (8000 * q + r + 1) (8000 * q + r)
      (by omega) (by omega) (by omega), ih r hr (by omega)]
    omega

/-- Adding a menu interval to a duration adds at most one cycle. -/
theorem cycleCount_add_interval {x c : Nat} (hc : c ∈ menu) (h32 : x + c < 4294967296) :
    cycleCount (x + c + 1) (x + c) ≤ cycleCount (x + 1) x + 1 := by
  have hx : x = 8000 * (x / 8000) + x % 8000 := by omega
  have hr : x % 8000 < 8000 := Nat.mod_lt _ (by decide)
  have hsplit := cycleCount_split (x / 8000) (x % 8000) hr (by omega)
  rw [← hx] at hsplit
  rw [hsplit]
  have hcases : c = 8000 ∨ c ∈ lowerMenu := by
    simp only [menu, lowerMenu, List.mem_cons, List.mem_singleton, List.not_mem_nil,
      or_false] at hc ⊢
    exact hc
  rcases hcases with rfl | hlow
  · have e : x + 8000 = 8000 * (x / 8000 + 1) + x % 8000 := by omega
    have := cycleCount_split (x / 8000 + 1) (x % 8000) hr (by omega)
    rw [← e] at this
    rw [this]
    omega
  · obtain ⟨c1, c2⟩ := closed_add_lower hr hlow
    have hc4 := (lowerMenu_le hlow).2
    by_cases hcarry : x % 8000 + c < 8000
    · have e : x + c = 8000 * (x / 8000) + (x % 8000 + c) := by omega
      have := cycleCount_split (x / 8000) (x % 8000 + c) hcarry (by omega)
      rw [← e] at this
      rw [this]
      have := c1 hcarry
      omega
    · have e : x + c = 8000 * (x / 8000 + 1) + (x % 8000 + c - 8000) := by omega
      have := cycleCount_split (x / 8000 + 1) (x % 8000 + c - 8000) (by omega) (by omega)
      rw [← e] at this
      rw [this]
      have := c2 (by omega)
      omega

/-- The number of wake-source cycles of `sleep(D)` is the cycle count of D. -/
theorem sleep_cycle_count (self : TinySleeper_t) (hw : Hw) (D : Nat) (hD : D < 4294967296) :
    ∃ e', sleep self hw D = some (sleepRestore e') ∧
      (cycles e'.log).length = cycleCount (D + 1) D := by
  obtain ⟨e', he', _, hP⟩ := sleep_inv
    (fun e d => d < 4294967296 ∧
      (cycles e.log).length + cycleCount (d + 1) d = cycleCount (D + 1) D)
    self hw D
    ⟨hD, by rw [sleepPrepare_log]; simp [cycles_append, cycles_prepareLog]⟩
    (by
      rintro e d h0 ⟨hd, hP⟩
      by_cases h16 : d < 16
      · rw [loopBody_wait e h16]
        refine ⟨by omega, ?_⟩
        show (cycles (e.log ++ _)).length + _ = _
        rw [cycles_append, cycles_delay, cycleCount_succ_lt 0 (by omega)]
        rw [cycleCount_succ_lt d h16] at hP
        simpa using hP
      · obtain ⟨p, k, hpk, hkd, hbig, heq⟩ := loopBody_cycle e (Nat.le_of_not_lt h16)
        obtain ⟨k', hk', hkd', hbig', h1⟩ :=
          cycleCount_succ_ge d (Nat.le_of_not_lt h16) hd
        have hk := (branchTable_mem hpk).2.2.2.2.2
        have hk16 := (branchTable_mem hpk).2.2.2.1
        have hkk : k' = k := Nat.le_antisymm (hbig k' hk' hkd') (hbig' k hk hkd)
        subst hkk
        rw [heq]
        have hsub := sub32_of_le hkd hd
        simp only [hsub]
        refine ⟨by omega, ?_⟩
        show (cycles (e.log ++ _)).length + _ = _
        rw [cycles_append, cycles_cycleLog]
        rw [h1, cycleCount_fuel d (d - k' + 1) (d - k') (by omega) (by omega) (by omega)] at hP
        simp only [List.length_append, List.length_cons, List.length_nil]
        omega)
  refine ⟨e', he', ?_⟩
  rw [cycleCount_succ_lt 0 (by decide)] at hP
  simpa using hP

/-- No list of menu intervals that covers D up to a remainder below 16 is
shorter than the cycle count of D. -/
theorem cycleCount_le_length (L : List Nat) :
    ∀ D : Nat, (∀ x ∈ L, x ∈ menu) → L.sum ≤ D → D < L.sum + 16 → D < 4294967296 →
      cycleCount (D + 1) D ≤ L.length := by
  induction L with
  | nil =>
    intro D _ _ h16 _
    rw [cycleCount_succ_lt D (by simpa using h16)]
    exact Nat.zero_le _
  | cons c L ih =>
    intro D hL hsum hslack h32
    rw [List.sum_cons] at hsum hslack
    have hc : c ∈ menu := hL c (List.mem_cons_self c L)
    have hrec := ih (D - c) (fun x hx => hL x (List.mem_cons_of_mem c hx)) (by omega)
      (by omega) (by omega)
    have hadd := @cycleCount_add_interval (D - c) c hc (by omega)
    have e : D - c + c = D := by omega
    rw [e] at hadd
    rw [List.length_cons]
    omega

/-- C16: the greedy decomposition minimises the number of wake-source cycles:
for every 32-bit duration D and every list L of menu intervals (repetitions
allowed) with sum(L) <= D and D - sum(L) < 16, `sleep(D)` executes at most
length(L) wake-source cycles. -/
theorem C16_greedy_minimises_cycles (self : TinySleeper_t) (hw : Hw) (D : Nat)
    (hD : D < 4294967296) (L : List Nat) (hL : ∀ x ∈ L, x ∈ menu) (hsum : L.sum ≤ D)
    (hslack : D - L.sum < 16) :
    ∃ e, sleep self hw D = some e ∧ (cycles e.log).length ≤ L.length := by
  obtain ⟨e', he', hc⟩ := sleep_cycle_count self hw D hD
  refine ⟨sleepRestore e', he', ?_⟩
  rw [sleepRestore_log, hc]
  exact cycleCount_le_length L D hL hsum (by omega) hD

/-- C16, applied: `sleep(8517)` against the list 8000, 250, 250, 16 (sum 8516);
the greedy decomposition 8000, 500, 16 has three cycles. -/
theorem C16_greedy_minimises_cycles_witness :
    (8517 < 4294967296 ∧ (∀ x ∈ [8000, 250, 250, 16], x ∈ menu) ∧
      [8000, 250, 250, 16].sum ≤ 8517 ∧ 8517 - [8000, 250, 250, 16].sum < 16) ∧
    (sleep TinySleeper hwRunning 8517).map (fun e => (cycles e.log).length) = some 3 ∧
    ∃ e, sleep TinySleeper hwRunning 8517 = some e ∧
      (cycles e.log).length ≤ [8000, 250, 250, 16].length :=
  ⟨by decide, by decide,
    C16_greedy_minimises_cycles TinySleeper hwRunning 8517 (by decide) [8000, 250, 250, 16]
      (by decide) (by decide) (by decide)⟩

end TinySleeper
